import Mathlib

/-!
# MyNodeC: the prime-counting speed test and the thread-safe async stream

A shallow embedding of `src/speedtst.c` (`SpeedTest_CPrimeCount`) and of
`src/mync1/ThreadSafeAsyncStream.cpp` (`CallJs`, `ExecuteWork`, `WorkComplete`,
`ThreadSafeAsyncStream`, `Init_ThreadSafeAsyncStream`).

C `int` / `int32_t` values are mathematical integers reduced with `wrap32`
after every increment; `/` and `%` are the truncating `Int.tdiv` / `Int.tmod`.
The Node-API runtime is not part of the repository: the handful of primitives
the two files call are modelled from the contract written in the specification
and operate on an explicit `World` value.
-/

namespace MyNodeC

/-! ## Machine integers -/

/-- Two's complement reduction of an integer to 32 bits (arithmetic modulo `2^32`,
result in `[-2^31, 2^31 - 1]`). -/
def wrap32 (n : Int) : Int := (n + 2147483648) % 4294967296 - 2147483648

/-- The value fits a C `int32_t`. -/
def isInt32 (n : Int) : Prop := -2147483648 ≤ n ∧ n ≤ 2147483647

instance (n : Int) : Decidable (isInt32 n) := by
  unfold isInt32
  infer_instance

/-! ## `speedtst.c` -/

/-- Status codes of the runtime that the modelled calls can return. -/
inductive napi_status where
  | napi_ok
  | napi_invalid_arg
  | napi_number_expected
  | napi_pending_exception
  | napi_queue_full
  | napi_closing
  deriving DecidableEq, Repr

/-- The inner loop of `SpeedTest_CPrimeCount` (speedtst.c lines 52-64):
`isPrime = 1; for (j = ..; j < VRange; j++) if (!(i % j)) { isPrime = 0; break; }`,
returning the final `isPrime`. The first argument bounds the number of
iterations; the caller passes `VRange - j`, which the loop cannot exceed. -/
def isPrimeLoop : Nat → Int → Int → Int → Int
  | 0, _, _, _ => 1
  | fuel + 1, i, VRange, j =>
    if j < VRange then
      if Int.tmod i j = 0 then 0
      else isPrimeLoop fuel i VRange (wrap32 (j + 1))
    else 1

/-- The outer loop of `SpeedTest_CPrimeCount` (speedtst.c lines 50-71):
`for (i = ..; i < y; i++) { ...; if (isPrime) ++PrimeCount; }`, returning the
final `PrimeCount`. The first argument bounds the number of iterations; the
caller passes `y - i`. -/
def countLoop : Nat → Int → Int → Int → Int
  | 0, _, _, PrimeCount => PrimeCount
  | fuel + 1, i, y, PrimeCount =>
    if i < y then
      let VRange := wrap32 (Int.tdiv i 2 + 1)
      let isPrime := isPrimeLoop (VRange - 2).toNat i VRange 2
      let PrimeCount := if isPrime ≠ 0 then wrap32 (PrimeCount + 1) else PrimeCount
      countLoop fuel (wrap32 (i + 1)) y PrimeCount
    else PrimeCount

/-- The counting part of `SpeedTest_CPrimeCount` (speedtst.c lines 46-71) on the
two converted arguments: clamp `x`, `++y`, run the loop from `PrimeCount = 0`. -/
def CountPrimes (x y : Int) : Int :=
  let x := if x < 2 then 2 else x
  let y := wrap32 (y + 1)
  countLoop (y - x).toNat x y 0

/-- Modelled from the spec: `napi_create_int32` is a runtime function that is not
in the repository; the speed-test surface is `CountPrimes(..) -> int32`, so boxing
an `int32_t` succeeds and yields that number. -/
def napi_create_int32 (v : Int) : napi_status × Int := (napi_status.napi_ok, v)

/-- The source constant `PRIME_COUNT` (line 9). -/
def PRIME_COUNT : Int := 10000

/-- The source constant `REPORT_EVERY` (line 10). -/
def REPORT_EVERY : Int := 1000

/-- The two threads of a run: the owning thread (JavaScript) and the worker. -/
inductive Thread where
  | owning
  | worker
  deriving DecidableEq, Repr

/-- Modelled from the spec: the Dispatcher (`napi_threadsafe_function`), whose
implementation is in the runtime: the bound callback, the queue bound given at
creation (0: unbounded), the count of threads allowed to submit, the queued item
addresses oldest first, and the admission mode. -/
structure Dispatcher where
  js_cb : Nat
  max_queue_size : Nat
  thread_count : Nat
  queue : List Nat
  closing : Bool
  deriving DecidableEq, Repr

/-- Modelled from the spec: the Job Handle (`napi_async_work`), created at run start,
queued once and destroyed by the completion callback. -/
structure JobHandle where
  queued : Bool
  deleted : Bool
  deriving DecidableEq, Repr

/-- One entry of the Dispatcher log kept by the model. `create` records the initial
count, `acquire` and `release` the count found before the change, `submit` the
integer held by the item, the mode and the count found. -/
inductive TsfnEvent where
  | create (tsfn : Nat) (count : Nat)
  | acquire (thread : Thread) (tsfn : Nat) (before : Nat)
  | release (thread : Thread) (tsfn : Nat) (before : Nat)
  | submit (thread : Thread) (tsfn : Nat) (payload : Option Int) (blocking : Bool) (count : Nat)
  deriving DecidableEq, Repr

/-- Why the process stopped: a failed `assert`. `AlreadyRunning` is the assertion
"Only one work item must exist at a time"; `napi_failure` is an
`assert(call == napi_ok)` whose call returned another status; `bad_pointer` is a
read or `free` of an address that is not live. -/
inductive Fault where
  | AlreadyRunning
  | napi_failure (status : napi_status)
  | bad_pointer
  deriving DecidableEq, Repr

/-- The structure `AddonData`: the two handles of the session (`none` is `NULL`). -/
structure AddonData where
  work : Option Nat
  tsfn : Option Nat
  deriving DecidableEq, Repr

/-- Everything the stream code reads or changes: the session, the Dispatchers and
Job Handles the runtime has created (a handle is an index), the live heap items
(address, stored `int`), the next address `malloc` hands out, the calls made into
JavaScript (function, arguments), the addresses passed to `free`, the Dispatcher
log, and the failed assertion if the process has stopped. -/
structure World where
  addon_data : AddonData
  dispatchers : List Dispatcher
  jobs : List JobHandle
  heap : List (Nat × Int)
  next_addr : Nat
  js_calls : List (Nat × List Int)
  frees : List Nat
  log : List TsfnEvent
  fault : Option Fault
  deriving DecidableEq, Repr

/-- A failed `assert` stops the process in the state it has reached. -/
def World.abort (w : World) (f : Fault) : World := { w with fault := some f }

/-- Modelled from the spec: `create(target_callback, ..)` of the Dispatcher
(`napi_create_threadsafe_function`); the count starts at the initial thread count,
the mode is accepting, the queue is empty. -/
def napi_create_threadsafe_function (js_cb max_queue_size initial_thread_count : Nat)
    (w : World) : napi_status × Nat × World :=
  if initial_thread_count = 0 then (napi_status.napi_invalid_arg, 0, w)
  else
    (napi_status.napi_ok, w.dispatchers.length,
      { w with
        dispatchers := w.dispatchers ++ [⟨js_cb, max_queue_size, initial_thread_count, [], false⟩]
        log := w.log ++ [TsfnEvent.create w.dispatchers.length initial_thread_count] })

/-- Modelled from the spec: `acquire()` of the Dispatcher
(`napi_acquire_threadsafe_function`): increments the count; fails in closing mode. -/
def napi_acquire_threadsafe_function (t : Thread) (tsfn : Option Nat) (w : World) :
    napi_status × World :=
  match tsfn with
  | none => (napi_status.napi_invalid_arg, w)
  | some h =>
    match w.dispatchers[h]? with
    | none => (napi_status.napi_invalid_arg, w)
    | some d =>
      if d.closing then (napi_status.napi_closing, w)
      else
        (napi_status.napi_ok,
          { w with
            dispatchers := w.dispatchers.set h { d with thread_count := d.thread_count + 1 }
            log := w.log ++ [TsfnEvent.acquire t h d.thread_count] })

/-- Modelled from the spec: `release()` of the Dispatcher
(`napi_release_threadsafe_function` with `napi_tsfn_release`): decrements the
count, and the Dispatcher turns closing when the count reaches zero; a release at
count zero is refused. -/
def napi_release_threadsafe_function (t : Thread) (tsfn : Option Nat) (w : World) :
    napi_status × World :=
  match tsfn with
  | none => (napi_status.napi_invalid_arg, w)
  | some h =>
    match w.dispatchers[h]? with
    | none => (napi_status.napi_invalid_arg, w)
    | some d =>
      if d.thread_count = 0 then (napi_status.napi_invalid_arg, w)
      else
        (napi_status.napi_ok,
          { w with
            dispatchers := w.dispatchers.set h
              { d with thread_count := d.thread_count - 1
                       closing := d.closing || d.thread_count - 1 == 0 }
            log := w.log ++ [TsfnEvent.release t h d.thread_count] })

/-- Modelled from the spec: `submit(item, mode)` of the Dispatcher
(`napi_call_threadsafe_function`): refused in closing mode; on a full queue a
non-blocking call fails and a blocking call suspends the caller (`none`: the call
has not returned); otherwise the item joins the back of the queue. -/
def napi_call_threadsafe_function (t : Thread) (tsfn : Option Nat) (data : Nat)
    (blocking : Bool) (w : World) : Option (napi_status × World) :=
  match tsfn with
  | none => some (napi_status.napi_invalid_arg, w)
  | some h =>
    match w.dispatchers[h]? with
    | none => some (napi_status.napi_invalid_arg, w)
    | some d =>
      if d.closing then some (napi_status.napi_closing, w)
      else if d.max_queue_size ≠ 0 ∧ d.max_queue_size ≤ d.queue.length then
        if blocking then none else some (napi_status.napi_queue_full, w)
      else
        some (napi_status.napi_ok,
          { w with
            dispatchers := w.dispatchers.set h { d with queue := d.queue ++ [data] }
            log := w.log ++
              [TsfnEvent.submit t h (w.heap.lookup data) blocking d.thread_count] })

/-- Modelled from the spec: creation of a Job Handle (`napi_create_async_work`). -/
def napi_create_async_work (w : World) : napi_status × Nat × World :=
  (napi_status.napi_ok, w.jobs.length, { w with jobs := w.jobs ++ [⟨false, false⟩] })

/-- Modelled from the spec: submission of the Job Handle to the execution queue of
the runtime (`napi_queue_async_work`). -/
def napi_queue_async_work (work : Option Nat) (w : World) : napi_status × World :=
  match work with
  | none => (napi_status.napi_invalid_arg, w)
  | some k =>
    match w.jobs[k]? with
    | none => (napi_status.napi_invalid_arg, w)
    | some j =>
      if j.deleted then (napi_status.napi_invalid_arg, w)
      else (napi_status.napi_ok, { w with jobs := w.jobs.set k { j with queued := true } })

/-- Modelled from the spec: destruction of the Job Handle (`napi_delete_async_work`). -/
def napi_delete_async_work (work : Option Nat) (w : World) : napi_status × World :=
  match work with
  | none => (napi_status.napi_invalid_arg, w)
  | some k =>
    match w.jobs[k]? with
    | none => (napi_status.napi_invalid_arg, w)
    | some j =>
      if j.deleted then (napi_status.napi_invalid_arg, w)
      else (napi_status.napi_ok, { w with jobs := w.jobs.set k { j with deleted := true } })

/-- The statements `malloc(sizeof(int))` followed by the store of `v` into the
block: a fresh address that now holds `v`. -/
def malloc_int (v : Int) (w : World) : Nat × World :=
  (w.next_addr, { w with heap := (w.next_addr, v) :: w.heap, next_addr := w.next_addr + 1 })

/-- The call `free(data)`: the item stops being live; freeing an address that is not
live stops the process. -/
def free (data : Nat) (w : World) : World :=
  match w.heap.lookup data with
  | none => w.abort Fault.bad_pointer
  | some _ =>
    { w with heap := w.heap.filter (fun e => e.1 ≠ data), frees := w.frees ++ [data] }

/-! ## `mync1/ThreadSafeAsyncStream.cpp`: the functions of the file -/

/-- Modelled from the spec: `napi_get_undefined` is a runtime function that is not in
the repository; fetching the `undefined` value succeeds. -/
def napi_get_undefined : napi_status := napi_status.napi_ok

/-- The function `CallJs` (lines 16-51). `env = none` is the `NULL` environment of
the cleanup phase. What the JavaScript function does when it is called is not in
the repository and is the parameter `napi_call_function`: the status of the call
of function `js_cb` with the given arguments in the given world, `napi_ok` when
the function returns and another status (`napi_pending_exception`) when it
throws. Each of the three runtime calls is under an `assert`, and the call of the
function is recorded whether it returns or throws. -/
def CallJs (napi_call_function : World → Nat → List Int → napi_status) (env : Option Nat)
    (js_cb : Nat) (data : Nat) (w : World) : World :=
  match w.heap.lookup data with
  | none => w.abort Fault.bad_pointer
  | some the_prime =>
    if env ≠ none then
      match napi_create_int32 the_prime with
      | (napi_status.napi_ok, js_the_prime) =>
        match napi_get_undefined with
        | napi_status.napi_ok =>
          match napi_call_function w js_cb [js_the_prime] with
          | napi_status.napi_ok =>
            free data { w with js_calls := w.js_calls ++ [(js_cb, [js_the_prime])] }
          | status =>
            World.abort { w with js_calls := w.js_calls ++ [(js_cb, [js_the_prime])] }
              (Fault.napi_failure status)
        | status => w.abort (Fault.napi_failure status)
      | (status, _) => w.abort (Fault.napi_failure status)
    else free data w

/-- The inner loop of `ExecuteWork` (lines 69-75):
`for (idx_inner = ..; idx_inner < idx_outer; idx_inner++) if (idx_outer % idx_inner == 0) break;`,
returning the final `idx_inner`. The first argument bounds the number of
iterations; the caller passes `idx_outer - idx_inner`. -/
def ExecuteWork_inner : Nat → Int → Int → Int
  | 0, _, idx_inner => idx_inner
  | fuel + 1, idx_outer, idx_inner =>
    if idx_inner < idx_outer then
      if Int.tmod idx_outer idx_inner = 0 then idx_inner
      else ExecuteWork_inner fuel idx_outer (wrap32 (idx_inner + 1))
    else idx_inner

/-- Lines 88-95 of `ExecuteWork`: the item is allocated, receives `idx_outer` and is
submitted in blocking mode under an `assert`. `none`: the worker is suspended in
the blocking call. -/
def submit_prime (idx_outer : Int) (w : World) : Option World :=
  let (the_prime, w1) := malloc_int idx_outer w
  match napi_call_threadsafe_function Thread.worker w1.addon_data.tsfn the_prime true w1 with
  | none => none
  | some (napi_status.napi_ok, w2) => some w2
  | some (status, w2) => some (w2.abort (Fault.napi_failure status))

/-- The outer loop of `ExecuteWork` (lines 67-97) from the state `idx_outer`,
`prime_count`. Every test of the loop condition uses one unit of `fuel`; `none`:
the loop has not ended within `fuel` tests, or the worker is suspended in a
blocking submit. A failed assertion ends the run at once. -/
def ExecuteWork_loop : Nat → Int → Int → World → Option World
  | 0, _, _, _ => none
  | fuel + 1, idx_outer, prime_count, w =>
    if prime_count < PRIME_COUNT then
      let idx_inner := ExecuteWork_inner (idx_outer - 2).toNat idx_outer 2
      if idx_inner < idx_outer then
        ExecuteWork_loop fuel (wrap32 (idx_outer + 1)) prime_count w
      else
        let prime_count := wrap32 (prime_count + 1)
        if Int.tmod prime_count REPORT_EVERY = 0 then
          match submit_prime idx_outer w with
          | none => none
          | some w1 =>
            if w1.fault ≠ none then some w1
            else ExecuteWork_loop fuel (wrap32 (idx_outer + 1)) prime_count w1
        else ExecuteWork_loop fuel (wrap32 (idx_outer + 1)) prime_count w
    else some w

/-- The function `ExecuteWork` (lines 55-102), run on the worker thread: acquire,
the production loop from `idx_outer = 2`, `prime_count = 0`, release. -/
def ExecuteWork (fuel : Nat) (w : World) : Option World :=
  match napi_acquire_threadsafe_function Thread.worker w.addon_data.tsfn w with
  | (napi_status.napi_ok, w1) =>
    match ExecuteWork_loop fuel 2 0 w1 with
    | none => none
    | some w2 =>
      if w2.fault ≠ none then some w2
      else
        match napi_release_threadsafe_function Thread.worker w2.addon_data.tsfn w2 with
        | (napi_status.napi_ok, w3) => some w3
        | (status, w3) => some (w3.abort (Fault.napi_failure status))
  | (status, w1) => some (w1.abort (Fault.napi_failure status))

/-- The function `WorkComplete` (lines 105-118), run on the owning thread. -/
def WorkComplete (w : World) : World :=
  match napi_release_threadsafe_function Thread.owning w.addon_data.tsfn w with
  | (napi_status.napi_ok, w1) =>
    match napi_delete_async_work w1.addon_data.work w1 with
    | (napi_status.napi_ok, w2) => { w2 with addon_data := { work := none, tsfn := none } }
    | (status, w2) => w2.abort (Fault.napi_failure status)
  | (status, w1) => w1.abort (Fault.napi_failure status)

/-- The function `ThreadSafeAsyncStream` (lines 124-177), the start operation;
`js_cb` is the callback received from JavaScript. The Dispatcher is created with
`max_queue_size = 0` and `initial_thread_count = 1`, as in the source; the asserted
creation of the resource name string is taken to succeed. -/
def ThreadSafeAsyncStream (js_cb : Nat) (w : World) : World :=
  if w.addon_data.work ≠ none then w.abort Fault.AlreadyRunning
  else
    match napi_create_threadsafe_function js_cb 0 1 w with
    | (napi_status.napi_ok, tsfn, w1) =>
      let w1 := { w1 with addon_data := { w1.addon_data with tsfn := some tsfn } }
      match napi_create_async_work w1 with
      | (napi_status.napi_ok, work, w2) =>
        let w2 := { w2 with addon_data := { w2.addon_data with work := some work } }
        match napi_queue_async_work w2.addon_data.work w2 with
        | (napi_status.napi_ok, w3) => w3
        | (status, w3) => w3.abort (Fault.napi_failure status)
      | (status, _, w2) => w2.abort (Fault.napi_failure status)
    | (status, _, w1) => w1.abort (Fault.napi_failure status)

/-- The session that `Init_ThreadSafeAsyncStream` (lines 180-212) sets up: `work` is
`NULL`; the source leaves `tsfn` uninitialised, so its content is a parameter. -/
def Init_ThreadSafeAsyncStream (uninitialised_tsfn : Option Nat) : World :=
  { addon_data := { work := none, tsfn := uninitialised_tsfn }
    dispatchers := []
    jobs := []
    heap := []
    next_addr := 0
    js_calls := []
    frees := []
    log := []
    fault := none }

/-! ## Runs -/

/-- Modelled from the spec: a run that completes normally is the start operation,
then the worker entry point, then the completion callback, the runtime running
the completion callback strictly after the entry point has returned. A failed
assertion stops the run where it occurs. -/
def normalRun (js_cb : Nat) (fuel : Nat) (w : World) : Option World :=
  let w1 := ThreadSafeAsyncStream js_cb w
  if w1.fault ≠ none then some w1
  else
    match ExecuteWork fuel w1 with
    | none => none
    | some w2 => if w2.fault ≠ none then some w2 else some (WorkComplete w2)

/-- Modelled from the spec: one delivery by the run loop of the owning thread. The
runtime holds the Dispatcher `h` itself, also after the session has dropped its
handle, and drains what is queued also once the count has reached zero: the oldest
queued item leaves the queue and is handed to the marshalling function `CallJs`
with the bound callback. `none`: nothing is queued. -/
def deliver (napi_call_function : World → Nat → List Int → napi_status) (env : Option Nat)
    (h : Nat) (w : World) : Option World :=
  match w.dispatchers[h]? with
  | none => none
  | some d =>
    match d.queue with
    | [] => none
    | data :: rest =>
      some (CallJs napi_call_function env d.js_cb data
        { w with dispatchers := w.dispatchers.set h { d with queue := rest } })

/-- A run in progress, after the start operation: the Dispatcher of the run as the
runtime holds it, whether the worker has made its acquire, the values the worker
has still to submit, in order, whether the worker has made its release and
returned, whether the completion callback has run, and the world. -/
structure Stream where
  tsfn : Nat
  acquired : Bool
  pending : List Int
  returned : Bool
  completed : Bool
  world : World
  deriving DecidableEq, Repr

/-- What can happen next in a run in progress: the worker thread executes its next
call of `ExecuteWork` (the acquire of line 64, a submission of lines 88-95, the
release of lines 100-101); the owning thread makes one delivery; the owning thread
runs the completion callback `WorkComplete`. -/
inductive Action where
  | worker
  | deliver
  | complete
  deriving DecidableEq, Repr

/-- Modelled from the spec: one step of a run in progress. Nothing happens once an
assertion has failed (the process has stopped). The worker cannot step once it has
returned or while it is suspended in a blocking submit; a delivery needs a queued
item; the runtime runs the completion callback once, strictly after the worker has
returned, and deliveries may come before or after it. `none`: the action cannot
be taken. -/
def step (napi_call_function : World → Nat → List Int → napi_status) (env : Option Nat) :
    Action → Stream → Option Stream
  | Action.worker, s =>
    if s.world.fault ≠ none then none
    else if s.returned then none
    else if s.acquired = false then
      match napi_acquire_threadsafe_function Thread.worker s.world.addon_data.tsfn s.world with
      | (napi_status.napi_ok, w) => some { s with acquired := true, world := w }
      | (status, w) => some { s with world := w.abort (Fault.napi_failure status) }
    else
      match s.pending with
      | v :: rest => (submit_prime v s.world).map (fun w => { s with pending := rest, world := w })
      | [] =>
        match napi_release_threadsafe_function Thread.worker s.world.addon_data.tsfn s.world with
        | (napi_status.napi_ok, w) => some { s with returned := true, world := w }
        | (status, w) => some { s with world := w.abort (Fault.napi_failure status) }
  | Action.deliver, s =>
    if s.world.fault ≠ none then none
    else (deliver napi_call_function env s.tsfn s.world).map (fun w => { s with world := w })
  | Action.complete, s =>
    if s.world.fault ≠ none then none
    else if s.returned = true ∧ s.completed = false then
      some { s with completed := true, world := WorkComplete s.world }
    else none

/-- An interleaving of the two threads: the actions are taken in the order of the
schedule; `none` when the schedule asks for an action that cannot be taken. -/
def runSchedule (napi_call_function : World → Nat → List Int → napi_status)
    (env : Option Nat) : List Action → Stream → Option Stream
  | [], s => some s
  | a :: as, s => (step napi_call_function env a s).bind (runSchedule napi_call_function env as)

/-- The run in progress right after the start operation with callback `js_cb` in the
world `w`, for a worker that is going to submit the values `vs`. -/
def startedStream (js_cb : Nat) (vs : List Int) (w : World) : Stream :=
  { tsfn := w.dispatchers.length
    acquired := false
    pending := vs
    returned := false
    completed := false
    world := ThreadSafeAsyncStream js_cb w }

/-- The count of the Dispatcher right after the logged operation. -/
def TsfnEvent.countAfter : TsfnEvent → Nat
  | TsfnEvent.create _ count => count
  | TsfnEvent.acquire _ _ before => before + 1
  | TsfnEvent.release _ _ before => before - 1
  | TsfnEvent.submit _ _ _ _ count => count

/-- The logged operation is a release issued by thread `t`. -/
def TsfnEvent.isReleaseBy (t : Thread) : TsfnEvent → Bool
  | TsfnEvent.release t1 _ _ => t1 == t
  | _ => false

/-- The logged operation is a release. -/
def TsfnEvent.isRelease : TsfnEvent → Bool
  | TsfnEvent.release _ _ _ => true
  | _ => false

/-- The logged operation is a release made while the count was zero. -/
def TsfnEvent.isReleaseAtZero : TsfnEvent → Bool
  | TsfnEvent.release _ _ before => before == 0
  | _ => false

/-- The logged operation is a submit made while the count was zero. -/
def TsfnEvent.isSubmitAtZero : TsfnEvent → Bool
  | TsfnEvent.submit _ _ _ _ count => count == 0
  | _ => false

/-- The item value and the mode of a logged submit. -/
def TsfnEvent.submitted : TsfnEvent → Option (Option Int × Bool)
  | TsfnEvent.submit _ _ payload blocking _ => some (payload, blocking)
  | _ => none

/-- The session right after registration, with `tsfn` holding `NULL`. -/
def idleWorld : World := Init_ThreadSafeAsyncStream none

/-- The session right after a start with callback 7: a run is active. -/
def runningWorld : World := ThreadSafeAsyncStream 7 idleWorld

/-- The values reported after `m` reports when `p k` is the prime found with
`k` primes before it: the `REPORT_EVERY`-th, the `2 * REPORT_EVERY`-th, ... -/
def reported (p : Nat → Nat) (m : Nat) : List Int :=
  (List.range m).map (fun k => ((p (REPORT_EVERY.toNat * (k + 1) - 1) : Nat) : Int))

/-- The worker may use Dispatcher `h`: the process runs, the session holds `h`, and
`h` is an accepting, unbounded Dispatcher whose count is `n`. -/
def Ready (h n : Nat) (w : World) : Prop :=
  w.fault = none ∧ w.addon_data.tsfn = some h ∧
    ∃ d, w.dispatchers[h]? = some d ∧ d.closing = false ∧ d.max_queue_size = 0 ∧
      d.thread_count = n

/-- The run in progress `s` accounts for the values `vs`: no assertion has failed,
the calls made into JavaScript after `base` carry `delivered`, the queue of the
Dispatcher holds distinct live items with the values `queued`, and `delivered`,
`queued` and the pending values make up `vs` in this order. Until the completion
callback has run the session holds the Dispatcher and the live Job Handle `k`, and
the Dispatcher is accepting with count 2 between the worker's acquire and release
and count 1 otherwise. -/
def Accounts (k cb : Nat) (vs : List Int) (base : List (Nat × List Int)) (s : Stream)
    (delivered queued : List Int) : Prop :=
  s.world.fault = none ∧
    (∃ d, s.world.dispatchers[s.tsfn]? = some d ∧ d.max_queue_size = 0 ∧ d.js_cb = cb ∧
      d.queue.Nodup ∧ (∀ a ∈ d.queue, a < s.world.next_addr) ∧
      d.queue.map (fun a => s.world.heap.lookup a) = queued.map some ∧
      (s.completed = false → d.closing = false ∧
        d.thread_count = if s.acquired = true ∧ s.returned = false then 2 else 1)) ∧
    (s.completed = false → s.world.addon_data.tsfn = some s.tsfn ∧
      s.world.addon_data.work = some k ∧
      ∃ j, s.world.jobs[k]? = some j ∧ j.deleted = false) ∧
    (s.returned = true → s.acquired = true ∧ s.pending = []) ∧
    (s.completed = true → s.returned = true) ∧
    s.world.js_calls = base ++ delivered.map (fun v => (cb, [v])) ∧
    delivered ++ queued ++ s.pending = vs

/-- The world `w1` is `w` after the worker has submitted the values `vs` in order to
Dispatcher `h`, of count `n`, in blocking mode, and nothing else has happened. -/
def Submitted (h n : Nat) (vs : List Int) (w w1 : World) : Prop :=
  Ready h n w1 ∧ w1.addon_data = w.addon_data ∧ w1.jobs = w.jobs ∧
    w1.js_calls = w.js_calls ∧ w1.frees = w.frees ∧
    w1.dispatchers.length = w.dispatchers.length ∧
    w1.log = w.log ++ vs.map (fun v => TsfnEvent.submit Thread.worker h (some v) true n)

/-! ## Machine integers: facts -/

theorem wrap32_succ_eq {n : Int} (hlo : -2147483648 ≤ n) (hhi : n < 2147483647) :
    wrap32 (n + 1) = n + 1 := by
  unfold wrap32
  omega

/-! ## `speedtst.c`: the counting loop -/

/-- The inner loop answers 0 when some `k` of the scanned range `[j, VRange)`
divides `i`, and 1 when none does. -/
theorem isPrimeLoop_eq (i VRange : Int) (hV : VRange ≤ 2147483647) :
    ∀ (fuel : Nat) (j : Int), 2 ≤ j → fuel = (VRange - j).toNat →
      ((∃ k, j ≤ k ∧ k < VRange ∧ k ∣ i) → isPrimeLoop fuel i VRange j = 0)
        ∧ ((¬ ∃ k, j ≤ k ∧ k < VRange ∧ k ∣ i) → isPrimeLoop fuel i VRange j = 1) := by
  intro fuel
  induction fuel with
  | zero =>
    intro j _ hf
    have hle : VRange ≤ j := by omega
    constructor
    · rintro ⟨k, h1, h2, _⟩
      omega
    · intro _
      rfl
  | succ f ih =>
    intro j hj hf
    have hlt : j < VRange := by omega
    unfold isPrimeLoop
    rw [if_pos hlt]
    by_cases hd : Int.tmod i j = 0
    · rw [if_pos hd]
      constructor
      · intro _
        rfl
      · intro hno
        exact absurd ⟨j, le_refl j, hlt, Int.dvd_of_tmod_eq_zero hd⟩ hno
    · rw [if_neg hd, wrap32_succ_eq (by omega) (by omega)]
      have hnd : ¬ j ∣ i := fun h => hd (Int.tmod_eq_zero_of_dvd h)
      obtain ⟨ih0, ih1⟩ := ih (j + 1) (by omega) (by omega)
      constructor
      · rintro ⟨k, h1, h2, h3⟩
        have hne : k ≠ j := by
          rintro rfl
          exact hnd h3
        exact ih0 ⟨k, by omega, h2, h3⟩
      · intro hno
        apply ih1
        rintro ⟨k, h1, h2, h3⟩
        exact hno ⟨k, by omega, h2, h3⟩

/-- Trial division by `2 .. n / 2` is a complete primality test for `n ≥ 2`. -/
theorem half_range_divisor_iff (n : Nat) (hn : 2 ≤ n) :
    (∃ m, 2 ≤ m ∧ m ≤ n / 2 ∧ m ∣ n) ↔ ¬ Nat.Prime n := by
  constructor
  · rintro ⟨m, h2, hle, hdvd⟩ hp
    rcases hp.eq_one_or_self_of_dvd m hdvd with h | h
    · omega
    · have : n / 2 < n := Nat.div_lt_self (by omega) (by omega)
      omega
  · intro hnp
    have hlt : n.minFac < n := (Nat.not_prime_iff_minFac_lt hn).1 hnp
    have hdvd : n.minFac ∣ n := Nat.minFac_dvd n
    have h2 : 2 ≤ n.minFac := (Nat.minFac_prime (by omega)).two_le
    refine ⟨n.minFac, h2, ?_, hdvd⟩
    obtain ⟨c, hc⟩ := hdvd
    have hc2 : 2 ≤ c := by
      rcases c with _ | _ | c
      · omega
      · omega
      · omega
    have : n.minFac * 2 ≤ n := by
      calc n.minFac * 2 ≤ n.minFac * c := Nat.mul_le_mul_left _ hc2
        _ = n := hc.symm
    omega

/-- The inner loop, started as the source starts it, is a primality test. -/
theorem isPrimeLoop_prime (i : Int) (h2 : 2 ≤ i) (hi : i ≤ 2147483647) :
    isPrimeLoop (wrap32 (Int.tdiv i 2 + 1) - 2).toNat i (wrap32 (Int.tdiv i 2 + 1)) 2
      = if Nat.Prime i.toNat then 1 else 0 := by
  have hdiv : Int.tdiv i 2 = i / 2 := Int.tdiv_eq_ediv (by omega) (by omega)
  have hw : wrap32 (Int.tdiv i 2 + 1) = i / 2 + 1 := by
    rw [hdiv]
    exact wrap32_succ_eq (by omega) (by omega)
  rw [hw]
  obtain ⟨h0, h1⟩ := isPrimeLoop_eq i (i / 2 + 1) (by omega) _ 2 (le_refl 2) rfl
  have hiff : (∃ k : Int, 2 ≤ k ∧ k < i / 2 + 1 ∧ k ∣ i) ↔ ¬ Nat.Prime i.toNat := by
    rw [← half_range_divisor_iff i.toNat (by omega)]
    constructor
    · rintro ⟨k, hk2, hk, hdvd⟩
      refine ⟨k.toNat, by omega, by omega, ?_⟩
      have : ((k.toNat : Int)) ∣ ((i.toNat : Int)) := by
        rw [Int.toNat_of_nonneg (by omega), Int.toNat_of_nonneg (by omega)]
        exact hdvd
      exact Int.natCast_dvd_natCast.1 this
    · rintro ⟨m, hm2, hm, hdvd⟩
      refine ⟨(m : Int), by omega, by omega, ?_⟩
      have : ((m : Int)) ∣ ((i.toNat : Int)) := Int.natCast_dvd_natCast.2 hdvd
      rwa [Int.toNat_of_nonneg (by omega)] at this
  by_cases hp : Nat.Prime i.toNat
  · rw [if_pos hp, h1 (fun h => (hiff.1 h) hp)]
  · rw [if_neg hp, h0 (hiff.2 hp)]

theorem filter_Ico_step (i y : Int) (h : i < y) (P : Int → Prop) [DecidablePred P] :
    ((Finset.Ico i y).filter P).card
      = (if P i then 1 else 0) + ((Finset.Ico (i + 1) y).filter P).card := by
  have hins : Finset.Ico i y = insert i (Finset.Ico (i + 1) y) := by
    ext k
    simp only [Finset.mem_Ico, Finset.mem_insert]
    omega
  have hnot : i ∉ (Finset.Ico (i + 1) y).filter P := by
    simp
  rw [hins, Finset.filter_insert]
  by_cases hp : P i
  · rw [if_pos hp, if_pos hp, Finset.card_insert_of_not_mem hnot]
    omega
  · rw [if_neg hp, if_neg hp]
    omega

/-- The outer loop adds to `PrimeCount` the number of primes of `[i, y)`. -/
theorem countLoop_eq (y : Int) (hy : y ≤ 2147483647) :
    ∀ (fuel : Nat) (i pc : Int), 2 ≤ i → fuel = (y - i).toNat → 0 ≤ pc →
      pc + fuel ≤ 2147483647 →
      countLoop fuel i y pc
        = pc + (((Finset.Ico i y).filter (fun p : Int => Nat.Prime p.toNat)).card : Int) := by
  intro fuel
  induction fuel with
  | zero =>
    intro i pc _ hf _ _
    have hle : y ≤ i := by omega
    simp [countLoop, Finset.Ico_eq_empty_of_le hle]
  | succ f ih =>
    intro i pc hi hf hpc hb
    have hlt : i < y := by omega
    unfold countLoop
    rw [if_pos hlt]
    simp only []
    rw [isPrimeLoop_prime i hi (by omega), wrap32_succ_eq (by omega) (by omega),
      filter_Ico_step i y hlt]
    by_cases hp : Nat.Prime i.toNat
    · simp only [if_pos hp]
      rw [if_pos (by decide), wrap32_succ_eq (by omega) (by omega),
        ih (i + 1) (pc + 1) (by omega) (by omega) (by omega) (by push_cast at hb ⊢; omega)]
      push_cast
      ring
    · simp only [if_neg hp]
      rw [if_neg (by decide), ih (i + 1) pc (by omega) (by omega) hpc (by push_cast at hb ⊢; omega)]
      push_cast
      ring

/-- C8. Prime-count correctness: for 32-bit `low`, `high` with `high < 2^31 - 1`
the counting loop of `SpeedTest_CPrimeCount` returns the number of primes `p` with
`max low 2 ≤ p ≤ high`; in particular it answers 4 on (10, 20) and 0 on (-5, 1). -/
theorem CountPrimes_correct (low high : Int) (hlow : isInt32 low) (hhigh : isInt32 high)
    (hlt : high < 2147483647) :
    CountPrimes low high
        = (((Finset.Icc (max low 2) high).filter (fun p : Int => Nat.Prime p.toNat)).card : Int)
      ∧ CountPrimes 10 20 = 4 ∧ CountPrimes (-5) 1 = 0 := by
  refine ⟨?_, by decide, by decide⟩
  unfold isInt32 at hlow hhigh
  have hx : (if low < 2 then 2 else low) = max low 2 := by
    split <;> omega
  have hI : Finset.Icc (max low 2) high = Finset.Ico (max low 2) (high + 1) := by
    ext k
    simp only [Finset.mem_Icc, Finset.mem_Ico]
    omega
  unfold CountPrimes
  simp only []
  rw [hx, hI, wrap32_succ_eq (by omega) hlt,
    countLoop_eq (high + 1) (by omega) _ (max low 2) 0 (by omega) rfl (le_refl 0) (by omega)]
  simp

/-- The prime-count theorem applied to the range (10, 20). -/
theorem CountPrimes_correct_witness :
    isInt32 10 ∧ isInt32 20 ∧ (20 : Int) < 2147483647 ∧
      CountPrimes 10 20
        = (((Finset.Icc (max (10 : Int) 2) 20).filter (fun p : Int => Nat.Prime p.toNat)).card : Int) :=
  ⟨by decide, by decide, by decide,
    (CountPrimes_correct 10 20 (by decide) (by decide) (by decide)).1⟩

/-- C10. Upper-bound overflow: for `high = 2^31 - 1` the `++y` wraps to `-2^31`,
the loop exits at once whatever its bound and count (its body never runs) and
`CountPrimes` returns 0 for every 32-bit `low`; for every 32-bit `high < 2^31 - 1`
the increment does not wrap. -/
theorem CountPrimes_upper_bound_overflow (low high : Int) (hlow : isInt32 low)
    (hhigh : isInt32 high) :
    wrap32 (2147483647 + 1) = -2147483648
      ∧ (∀ (fuel : Nat) (pc : Int),
          countLoop fuel (if low < 2 then 2 else low) (wrap32 (2147483647 + 1)) pc = pc)
      ∧ CountPrimes low 2147483647 = 0
      ∧ (high < 2147483647 → wrap32 (high + 1) = high + 1) := by
  unfold isInt32 at hlow hhigh
  have hw : wrap32 (2147483647 + 1) = -2147483648 := by decide
  have hloop : ∀ (fuel : Nat) (pc : Int),
      countLoop fuel (if low < 2 then 2 else low) (wrap32 (2147483647 + 1)) pc = pc := by
    intro fuel pc
    rw [hw]
    have hnot : ¬ ((if low < 2 then 2 else low) < -2147483648) := by
      split <;> omega
    cases fuel with
    | zero => rfl
    | succ f =>
      unfold countLoop
      rw [if_neg hnot]
  refine ⟨hw, hloop, ?_, fun h => wrap32_succ_eq hhigh.1 h⟩
  unfold CountPrimes
  simp only []
  exact hloop _ 0

/-- The overflow theorem applied to `low = 3` and `high = 100`. -/
theorem CountPrimes_upper_bound_overflow_witness :
    isInt32 3 ∧ isInt32 100 ∧ CountPrimes 3 2147483647 = 0 ∧ wrap32 (100 + 1) = 100 + 1 :=
  ⟨by decide, by decide,
    (CountPrimes_upper_bound_overflow 3 100 (by decide) (by decide)).2.2.1,
    (CountPrimes_upper_bound_overflow 3 100 (by decide) (by decide)).2.2.2 (by decide)⟩

/-- The central binomial coefficient is at most `2n` to the number of primes up to `2n`. -/
theorem centralBinom_le_pow_count (n : Nat) (hn : 0 < n) :
    n.centralBinom ≤ (2 * n) ^ Nat.count Nat.Prime (2 * n + 1) := by
  have hprod := Nat.prod_pow_factorization_centralBinom n
  have hle : ∏ p ∈ Finset.range (2 * n + 1), p ^ n.centralBinom.factorization p
      ≤ ∏ p ∈ Finset.range (2 * n + 1), (if Nat.Prime p then 2 * n else 1) := by
    apply Finset.prod_le_prod
    · intro i _
      exact Nat.zero_le _
    · intro p _
      by_cases hp : Nat.Prime p
      · rw [if_pos hp, Nat.centralBinom_eq_two_mul_choose]
        exact Nat.pow_factorization_choose_le (by omega)
      · rw [if_neg hp, Nat.factorization_eq_zero_of_non_prime _ hp, pow_zero]
  rw [hprod] at hle
  have hcount : ∏ p ∈ Finset.range (2 * n + 1), (if Nat.Prime p then 2 * n else 1)
      = (2 * n) ^ Nat.count Nat.Prime (2 * n + 1) := by
    rw [Finset.prod_ite, Finset.prod_const, Finset.prod_const_one, mul_one,
      Nat.count_eq_card_filter_range]
  rw [hcount] at hle
  exact hle

/-- A lower bound on the number of primes up to `2^(a+1)`. -/
theorem count_prime_pow_two (a : Nat) (ha : 2 ≤ a) :
    2 * 2 ^ a < a + (a + 1) * Nat.count Nat.Prime (2 * 2 ^ a + 1) := by
  have hpos : 0 < 2 ^ a := Nat.pow_pos (by omega)
  have h4 : 4 ≤ 2 ^ a := by
    calc 4 = 2 ^ 2 := by norm_num
      _ ≤ 2 ^ a := Nat.pow_le_pow_right (by omega) ha
  have h1 := Nat.four_pow_lt_mul_centralBinom (2 ^ a) h4
  have h2 := centralBinom_le_pow_count (2 ^ a) hpos
  generalize Nat.count Nat.Prime (2 * 2 ^ a + 1) = c at h2 ⊢
  have h3 : 2 ^ a * (2 ^ a).centralBinom ≤ 2 ^ a * (2 * 2 ^ a) ^ c :=
    Nat.mul_le_mul_left _ h2
  have h5 : 2 ^ a * (2 * 2 ^ a) ^ c = 2 ^ (a + (a + 1) * c) := by
    rw [← pow_succ', ← pow_mul, ← pow_add]
  have h6 : (4 : Nat) ^ (2 ^ a) = 2 ^ (2 * 2 ^ a) := by
    rw [pow_mul]
    norm_num
  rw [h5] at h3
  rw [h6] at h1
  exact (Nat.pow_lt_pow_iff_right (by omega)).1 (lt_of_lt_of_le h1 h3)

/-- The 10000th prime is below `2^18`, far inside the range of a C `int`. -/
theorem nth_prime_9999_lt : Nat.nth Nat.Prime 9999 < 262145 := by
  have h := count_prime_pow_two 17 (by omega)
  norm_num at h
  exact Nat.nth_lt_of_lt_count (by omega)

/-! ## `ExecuteWork`: the loops -/

/-- The inner loop stops below `idx_outer` exactly when some `k` of `[idx_inner, idx_outer)`
divides `idx_outer`. -/
theorem ExecuteWork_inner_lt (o : Int) (ho : o ≤ 2147483647) :
    ∀ (fuel : Nat) (j : Int), 2 ≤ j → fuel = (o - j).toNat →
      ((∃ k, j ≤ k ∧ k < o ∧ k ∣ o) → ExecuteWork_inner fuel o j < o)
        ∧ ((¬ ∃ k, j ≤ k ∧ k < o ∧ k ∣ o) → ¬ ExecuteWork_inner fuel o j < o) := by
  intro fuel
  induction fuel with
  | zero =>
    intro j _ hf
    have hle : o ≤ j := by omega
    constructor
    · rintro ⟨k, h1, h2, _⟩
      omega
    · intro _
      simp only [ExecuteWork_inner]
      omega
  | succ f ih =>
    intro j hj hf
    have hlt : j < o := by omega
    unfold ExecuteWork_inner
    rw [if_pos hlt]
    by_cases hd : Int.tmod o j = 0
    · rw [if_pos hd]
      constructor
      · intro _
        exact hlt
      · intro hno
        exact absurd ⟨j, le_refl j, hlt, Int.dvd_of_tmod_eq_zero hd⟩ hno
    · rw [if_neg hd, wrap32_succ_eq (by omega) (by omega)]
      have hnd : ¬ j ∣ o := fun h => hd (Int.tmod_eq_zero_of_dvd h)
      obtain ⟨ih0, ih1⟩ := ih (j + 1) (by omega) (by omega)
      constructor
      · rintro ⟨k, h1, h2, h3⟩
        have hne : k ≠ j := by
          rintro rfl
          exact hnd h3
        exact ih0 ⟨k, by omega, h2, h3⟩
      · intro hno
        apply ih1
        rintro ⟨k, h1, h2, h3⟩
        exact hno ⟨k, by omega, h2, h3⟩

/-- The trial division of `ExecuteWork` is a primality test: the inner loop, started
at 2, ends below `idx_outer` exactly for a composite `idx_outer`. -/
theorem ExecuteWork_inner_prime (n : Nat) (h2 : 2 ≤ n) (hn : n ≤ 2147483647) :
    ExecuteWork_inner ((n : Int) - 2).toNat n 2 < (n : Int) ↔ ¬ Nat.Prime n := by
  obtain ⟨h0, h1⟩ := ExecuteWork_inner_lt (n : Int) (by omega) _ 2 (le_refl 2) rfl
  have hiff : (∃ k : Int, 2 ≤ k ∧ k < (n : Int) ∧ k ∣ (n : Int)) ↔ ¬ Nat.Prime n := by
    constructor
    · rintro ⟨k, hk2, hk, hdvd⟩ hp
      have hd : k.toNat ∣ n := by
        have : ((k.toNat : Int)) ∣ (n : Int) := by
          rw [Int.toNat_of_nonneg (by omega)]
          exact hdvd
        exact Int.natCast_dvd_natCast.1 this
      rcases hp.eq_one_or_self_of_dvd _ hd with h | h
      · omega
      · omega
    · intro hnp
      have hlt : n.minFac < n := (Nat.not_prime_iff_minFac_lt h2).1 hnp
      have h2m : 2 ≤ n.minFac := (Nat.minFac_prime (by omega)).two_le
      exact ⟨(n.minFac : Int), by omega, by omega,
        Int.natCast_dvd_natCast.2 (Nat.minFac_dvd n)⟩
  constructor
  · intro hlt hp
    exact h1 (fun hex => (hiff.1 hex) hp) hlt
  · intro hnp
    exact h0 (hiff.2 hnp)

/-! ## `ExecuteWork`: submissions -/

theorem Submitted.refl {h n : Nat} {w : World} (hr : Ready h n w) : Submitted h n [] w w := by
  refine ⟨hr, rfl, rfl, rfl, rfl, rfl, ?_⟩
  simp

theorem Submitted.trans {h n : Nat} {vs us : List Int} {w w1 w2 : World}
    (h1 : Submitted h n vs w w1) (h2 : Submitted h n us w1 w2) :
    Submitted h n (vs ++ us) w w2 := by
  obtain ⟨_, a1, b1, c1, d1, e1, f1⟩ := h1
  obtain ⟨r2, a2, b2, c2, d2, e2, f2⟩ := h2
  refine ⟨r2, a2.trans a1, b2.trans b1, c2.trans c1, d2.trans d1, e2.trans e1, ?_⟩
  rw [f2, f1, List.map_append, List.append_assoc]

/-- In a world where the worker may use the Dispatcher, the submission of lines
88-95 returns and leaves exactly one more submitted value. -/
theorem submit_prime_ready {h n : Nat} {w : World} (v : Int) (hr : Ready h n w) :
    ∃ w1, submit_prime v w = some w1 ∧ Submitted h n [v] w w1 := by
  obtain ⟨hf, ht, d, hd, hc, hm, hn⟩ := hr
  have hlt : h < w.dispatchers.length := by
    rcases List.getElem?_eq_some_iff.1 hd with ⟨hlt, _⟩
    exact hlt
  have heq : submit_prime v w = some
      { w with
        heap := (w.next_addr, v) :: w.heap
        next_addr := w.next_addr + 1
        dispatchers := w.dispatchers.set h { d with queue := d.queue ++ [w.next_addr] }
        log := w.log ++ [TsfnEvent.submit Thread.worker h (some v) true n] } := by
    simp [submit_prime, malloc_int, napi_call_threadsafe_function, ht, hd, hc, hm, hn,
      List.lookup]
  refine ⟨_, heq, ⟨hf, ht, { d with queue := d.queue ++ [w.next_addr] }, ?_, hc, hm, hn⟩,
    rfl, rfl, rfl, rfl, ?_, ?_⟩
  · simp [hlt]
  · simp
  · simp

theorem reported_succ (p : Nat → Nat) (m : Nat) :
    reported p (m + 1) = reported p m ++ [((p (1000 * (m + 1) - 1) : Nat) : Int)] := by
  simp [reported, List.range_succ, REPORT_EVERY]

/-- The production loop, entered at `idx_outer = n` with `prime_count` the number of
primes below `n` and the reports made so far, ends within `p(10000) + 2 - n` tests
of its condition, having made the ten reports. -/
theorem ExecuteWork_loop_spec (h cnt : Nat) (w0 : World) :
    ∀ (fuel n : Nat) (w : World), 2 ≤ n → n ≤ Nat.nth Nat.Prime 9999 + 1 →
      Nat.nth Nat.Prime 9999 + 2 - n ≤ fuel →
      Submitted h cnt (reported (Nat.nth Nat.Prime) (Nat.count Nat.Prime n / 1000)) w0 w →
      ∃ w1, ExecuteWork_loop fuel (n : Int) ((Nat.count Nat.Prime n : Nat) : Int) w = some w1 ∧
        Submitted h cnt (reported (Nat.nth Nat.Prime) 10) w0 w1 := by
  have hP := nth_prime_9999_lt
  have hinf := Nat.infinite_setOf_prime
  intro fuel
  induction fuel with
  | zero =>
    intro n w _ hn hf _
    omega
  | succ f ih =>
    intro n w h2 hn hf hsub
    unfold ExecuteWork_loop
    by_cases hc : Nat.count Nat.Prime n < 10000
    · have hcI : ((Nat.count Nat.Prime n : Nat) : Int) < PRIME_COUNT := by
        unfold PRIME_COUNT
        omega
      have hnP : n ≤ Nat.nth Nat.Prime 9999 :=
        (Nat.count_le_iff_le_nth hinf).1 (show Nat.count Nat.Prime n ≤ 9999 by omega)
      have hw : wrap32 ((n : Int) + 1) = ((n + 1 : Nat) : Int) := by
        rw [wrap32_succ_eq (by omega) (by omega)]
        push_cast
        rfl
      rw [if_pos hcI]
      simp only []
      rw [hw]
      by_cases hp : Nat.Prime n
      · have hnlt : ¬ ExecuteWork_inner ((n : Int) - 2).toNat n 2 < (n : Int) := by
          rw [ExecuteWork_inner_prime n h2 (by omega)]
          exact fun hnp => hnp hp
        have hcs : Nat.count Nat.Prime (n + 1) = Nat.count Nat.Prime n + 1 := by
          rw [Nat.count_succ, if_pos hp]
        have hwc : wrap32 (((Nat.count Nat.Prime n : Nat) : Int) + 1)
            = ((Nat.count Nat.Prime (n + 1) : Nat) : Int) := by
          rw [wrap32_succ_eq (by omega) (by omega), hcs]
          push_cast
          rfl
        rw [if_neg hnlt, hwc]
        by_cases hr : (Nat.count Nat.Prime n + 1) % 1000 = 0
        · have hrI : Int.tmod ((Nat.count Nat.Prime (n + 1) : Nat) : Int) REPORT_EVERY = 0 := by
            unfold REPORT_EVERY
            rw [Int.tmod_eq_emod (by omega) (by omega), hcs]
            omega
          rw [if_pos hrI]
          obtain ⟨w1, hs1, hsub1⟩ := submit_prime_ready (n : Int) hsub.1
          rw [hs1]
          simp only []
          have hf1 : ¬ (w1.fault ≠ none) := by
            rw [hsub1.1.1]
            exact fun hne => hne rfl
          rw [if_neg hf1]
          apply ih (n + 1) w1 (by omega) (by omega) (by omega)
          have hdiv : Nat.count Nat.Prime (n + 1) / 1000 = Nat.count Nat.Prime n / 1000 + 1 := by
            omega
          have hidx : 1000 * (Nat.count Nat.Prime n / 1000 + 1) - 1 = Nat.count Nat.Prime n := by
            omega
          rw [hdiv, reported_succ, hidx, Nat.nth_count hp]
          exact hsub.trans hsub1
        · have hrI : ¬ Int.tmod ((Nat.count Nat.Prime (n + 1) : Nat) : Int) REPORT_EVERY = 0 := by
            unfold REPORT_EVERY
            rw [Int.tmod_eq_emod (by omega) (by omega), hcs]
            omega
          rw [if_neg hrI]
          apply ih (n + 1) w (by omega) (by omega) (by omega)
          have hdiv : Nat.count Nat.Prime (n + 1) / 1000 = Nat.count Nat.Prime n / 1000 := by
            omega
          rw [hdiv]
          exact hsub
      · have hlt : ExecuteWork_inner ((n : Int) - 2).toNat n 2 < (n : Int) :=
          (ExecuteWork_inner_prime n h2 (by omega)).2 hp
        have hcs : Nat.count Nat.Prime (n + 1) = Nat.count Nat.Prime n := by
          rw [Nat.count_succ, if_neg hp]
          rfl
        rw [if_pos hlt]
        have := ih (n + 1) w (by omega) (by omega) (by omega) (by rw [hcs]; exact hsub)
        rw [hcs] at this
        exact this
    · have hcI : ¬ ((Nat.count Nat.Prime n : Nat) : Int) < PRIME_COUNT := by
        unfold PRIME_COUNT
        omega
      rw [if_neg hcI]
      have hle : Nat.count Nat.Prime n ≤ 10000 := by
        have h1 : Nat.count Nat.Prime n ≤ Nat.count Nat.Prime (Nat.nth Nat.Prime 9999 + 1) :=
          Nat.count_monotone _ hn
        have h2 : Nat.count Nat.Prime (Nat.nth Nat.Prime 9999 + 1) = 9999 + 1 :=
          Nat.count_nth_succ (fun hfin => absurd hfin hinf)
        omega
      have heq : Nat.count Nat.Prime n / 1000 = 10 := by omega
      rw [heq] at hsub
      exact ⟨w, rfl, hsub⟩

/-- More fuel does not change the result of a production loop that has ended. -/
theorem ExecuteWork_loop_mono :
    ∀ (f : Nat) (o c : Int) (w w1 : World), ExecuteWork_loop f o c w = some w1 →
      ∀ g, f ≤ g → ExecuteWork_loop g o c w = some w1 := by
  intro f
  induction f with
  | zero =>
    intro o c w w1 h
    simp [ExecuteWork_loop] at h
  | succ f ih =>
    intro o c w w1 h g hg
    obtain ⟨g1, rfl⟩ : ∃ g1, g = g1 + 1 := ⟨g - 1, by omega⟩
    have hg1 : f ≤ g1 := by omega
    unfold ExecuteWork_loop at h ⊢
    by_cases h1 : c < PRIME_COUNT
    · rw [if_pos h1] at h ⊢
      simp only [] at h ⊢
      by_cases h2 : ExecuteWork_inner (o - 2).toNat o 2 < o
      · rw [if_pos h2] at h ⊢
        exact ih _ _ _ _ h _ hg1
      · rw [if_neg h2] at h ⊢
        by_cases h3 : Int.tmod (wrap32 (c + 1)) REPORT_EVERY = 0
        · rw [if_pos h3] at h ⊢
          cases hs : submit_prime o w with
          | none =>
            rw [hs] at h
            simp at h
          | some w2 =>
            rw [hs] at h
            simp only [] at h ⊢
            by_cases h4 : w2.fault ≠ none
            · rw [if_pos h4] at h ⊢
              exact h
            · rw [if_neg h4] at h ⊢
              exact ih _ _ _ _ h _ hg1
        · rw [if_neg h3] at h ⊢
          exact ih _ _ _ _ h _ hg1
    · rw [if_neg h1] at h ⊢
      exact h

/-- The worker entry point, in a world where it may use Dispatcher `h` of count
`cnt ≥ 1`: it returns for every fuel from `2^18` on, always in the same world,
having logged its acquire, the ten reports in blocking mode and its release, and
having changed neither the session nor the count. -/
theorem ExecuteWork_spec {h cnt : Nat} {w : World} (hr : Ready h cnt w) (hcnt : 1 ≤ cnt) :
    ∃ w1, (∀ fuel, 262144 ≤ fuel → ExecuteWork fuel w = some w1) ∧ Ready h cnt w1 ∧
      w1.addon_data = w.addon_data ∧ w1.jobs = w.jobs ∧ w1.js_calls = w.js_calls ∧
      w1.frees = w.frees ∧ w1.dispatchers.length = w.dispatchers.length ∧
      w1.log = w.log ++ [TsfnEvent.acquire Thread.worker h cnt]
        ++ (reported (Nat.nth Nat.Prime) 10).map
            (fun v => TsfnEvent.submit Thread.worker h (some v) true (cnt + 1))
        ++ [TsfnEvent.release Thread.worker h (cnt + 1)] := by
  obtain ⟨hf, ht, d, hd, hc, hm, hn⟩ := hr
  have hlt : h < w.dispatchers.length := by
    rcases List.getElem?_eq_some_iff.1 hd with ⟨hlt, _⟩
    exact hlt
  -- the acquire
  have hacq : napi_acquire_threadsafe_function Thread.worker w.addon_data.tsfn w
      = (napi_status.napi_ok,
          { w with
            dispatchers := w.dispatchers.set h { d with thread_count := d.thread_count + 1 }
            log := w.log ++ [TsfnEvent.acquire Thread.worker h d.thread_count] }) := by
    simp [napi_acquire_threadsafe_function, ht, hd, hc]
  generalize hwa : ({ w with
      dispatchers := w.dispatchers.set h { d with thread_count := d.thread_count + 1 }
      log := w.log ++ [TsfnEvent.acquire Thread.worker h d.thread_count] } : World) = wa at hacq
  have hra : Ready h (cnt + 1) wa := by
    subst hwa
    refine ⟨hf, ht, { d with thread_count := d.thread_count + 1 }, ?_, hc, hm, ?_⟩
    · simp [hlt]
    · simp [hn]
  -- the loop
  have hP := nth_prime_9999_lt
  have hP2 : 2 ≤ Nat.nth Nat.Prime 9999 := (Nat.prime_nth_prime 9999).two_le
  have h0 : Nat.count Nat.Prime 2 = 0 := by decide
  obtain ⟨w2, hloop, hsub⟩ := ExecuteWork_loop_spec h (cnt + 1) wa 262144 2 wa (le_refl 2)
    (by omega) (by omega) (by
      rw [h0, Nat.zero_div]
      exact Submitted.refl hra)
  have hloop0 : ExecuteWork_loop 262144 2 0 wa = some w2 := by
    rw [h0] at hloop
    exact hloop
  obtain ⟨⟨hf2, ht2, d2, hd2, hc2, hm2, hn2⟩, ha2, hj2, hcalls2, hfr2, hlen2, hlog2⟩ := hsub
  have hlt2 : h < w2.dispatchers.length := by
    rcases List.getElem?_eq_some_iff.1 hd2 with ⟨hlt2, _⟩
    exact hlt2
  -- the release
  have hrel : napi_release_threadsafe_function Thread.worker w2.addon_data.tsfn w2
      = (napi_status.napi_ok,
          { w2 with
            dispatchers := w2.dispatchers.set h
              { d2 with thread_count := d2.thread_count - 1
                        closing := d2.closing || d2.thread_count - 1 == 0 }
            log := w2.log ++ [TsfnEvent.release Thread.worker h d2.thread_count] }) := by
    simp [napi_release_threadsafe_function, ht2, hd2, hn2]
  have hexec : ∀ fuel, 262144 ≤ fuel → ExecuteWork fuel w = some
      { w2 with
        dispatchers := w2.dispatchers.set h
          { d2 with thread_count := d2.thread_count - 1
                    closing := d2.closing || d2.thread_count - 1 == 0 }
        log := w2.log ++ [TsfnEvent.release Thread.worker h d2.thread_count] } := by
    intro fuel hfuel
    have hl := ExecuteWork_loop_mono _ _ _ _ _ hloop0 fuel hfuel
    unfold ExecuteWork
    rw [hacq]
    simp only []
    rw [hl]
    simp only []
    rw [if_neg (by rw [hf2]; exact fun hne => hne rfl), hrel]
  have hd3 : (w2.dispatchers.set h
      { d2 with thread_count := d2.thread_count - 1
                closing := d2.closing || d2.thread_count - 1 == 0 })[h]?
      = some { d2 with thread_count := d2.thread_count - 1
                       closing := d2.closing || d2.thread_count - 1 == 0 } := by
    simp [hlt2]
  have hc3 : (d2.closing || d2.thread_count - 1 == 0) = false := by
    simp [hc2, hn2]
    omega
  have hn3 : d2.thread_count - 1 = cnt := by
    omega
  refine ⟨_, hexec, ⟨hf2, ht2, _, hd3, hc3, hm2, hn3⟩, ?_, ?_, ?_, ?_, ?_, ?_⟩
  · show w2.addon_data = w.addon_data
    rw [ha2, ← hwa]
  · show w2.jobs = w.jobs
    rw [hj2, ← hwa]
  · show w2.js_calls = w.js_calls
    rw [hcalls2, ← hwa]
  · show w2.frees = w.frees
    rw [hfr2, ← hwa]
  · show (w2.dispatchers.set h _).length = w.dispatchers.length
    rw [List.length_set, hlen2, ← hwa]
    simp
  · show w2.log ++ [TsfnEvent.release Thread.worker h d2.thread_count] = _
    rw [hlog2, hn2, ← hwa, hn]

/-! ## The session: start and completion -/

/-- The start operation on an idle session: a Dispatcher of count 1 and a queued
Job Handle are created and stored. -/
theorem ThreadSafeAsyncStream_idle (js_cb : Nat) (w : World) (hidle : w.addon_data.work = none) :
    ThreadSafeAsyncStream js_cb w =
      { w with
        addon_data := { work := some w.jobs.length, tsfn := some w.dispatchers.length }
        dispatchers := w.dispatchers ++ [⟨js_cb, 0, 1, [], false⟩]
        jobs := w.jobs ++ [⟨true, false⟩]
        log := w.log ++ [TsfnEvent.create w.dispatchers.length 1] } := by
  simp [ThreadSafeAsyncStream, hidle, napi_create_threadsafe_function, napi_create_async_work,
    napi_queue_async_work]

/-- After the start operation on an idle session the worker may use the new
Dispatcher, whose count is 1. -/
theorem ThreadSafeAsyncStream_ready (js_cb : Nat) (w : World)
    (hidle : w.addon_data.work = none) (hf : w.fault = none) :
    Ready w.dispatchers.length 1 (ThreadSafeAsyncStream js_cb w) := by
  rw [ThreadSafeAsyncStream_idle js_cb w hidle]
  exact ⟨hf, rfl, ⟨js_cb, 0, 1, [], false⟩, by simp, rfl, rfl, rfl⟩

/-- The completion callback in a world where the Dispatcher `h` has count 1 and the
session's Job Handle is alive: the count drops to zero, the Job Handle is
destroyed, both session fields are cleared. -/
theorem WorkComplete_spec {h k : Nat} {w : World} {j : JobHandle} (hr : Ready h 1 w)
    (hwork : w.addon_data.work = some k) (hj : w.jobs[k]? = some j) (hdel : j.deleted = false) :
    (WorkComplete w).fault = none ∧ (WorkComplete w).addon_data = { work := none, tsfn := none } ∧
      (WorkComplete w).log = w.log ++ [TsfnEvent.release Thread.owning h 1] ∧
      (WorkComplete w).jobs = w.jobs.set k { j with deleted := true } ∧
      (WorkComplete w).js_calls = w.js_calls ∧ (WorkComplete w).frees = w.frees ∧
      (WorkComplete w).dispatchers.length = w.dispatchers.length := by
  obtain ⟨hf, ht, d, hd, hc, hm, hn⟩ := hr
  have heq : WorkComplete w =
      { w with
        addon_data := { work := none, tsfn := none }
        dispatchers := w.dispatchers.set h
          { d with thread_count := d.thread_count - 1
                   closing := d.closing || d.thread_count - 1 == 0 }
        jobs := w.jobs.set k { j with deleted := true }
        log := w.log ++ [TsfnEvent.release Thread.owning h d.thread_count] } := by
    simp [WorkComplete, napi_release_threadsafe_function, napi_delete_async_work, ht, hd, hn,
      hwork, hj, hdel]
  rw [heq]
  refine ⟨hf, rfl, ?_, rfl, rfl, rfl, ?_⟩
  · simp [hn]
  · simp

/-- A run that completes normally, from an idle session: for every fuel from `2^18`
on it ends in one and the same world, without a failed assertion, with the
session cleared and with the log extended by the creation (count 1), the worker's
acquire (1 to 2), the ten blocking reports (count 2), the worker's release
(2 to 1) and the owning thread's release (1 to 0). -/
theorem normalRun_spec (js_cb : Nat) (w : World) (hidle : w.addon_data.work = none)
    (hf : w.fault = none) :
    ∃ w1, (∀ fuel, 262144 ≤ fuel → normalRun js_cb fuel w = some w1) ∧ w1.fault = none ∧
      w1.addon_data = { work := none, tsfn := none } ∧
      w1.jobs = w.jobs ++ [⟨true, true⟩] ∧
      w1.dispatchers.length = w.dispatchers.length + 1 ∧
      w1.js_calls = w.js_calls ∧ w1.frees = w.frees ∧
      w1.log = w.log ++ [TsfnEvent.create w.dispatchers.length 1]
        ++ [TsfnEvent.acquire Thread.worker w.dispatchers.length 1]
        ++ (reported (Nat.nth Nat.Prime) 10).map
            (fun v => TsfnEvent.submit Thread.worker w.dispatchers.length (some v) true 2)
        ++ [TsfnEvent.release Thread.worker w.dispatchers.length 2]
        ++ [TsfnEvent.release Thread.owning w.dispatchers.length 1] := by
  have hready := ThreadSafeAsyncStream_ready js_cb w hidle hf
  have hstart := ThreadSafeAsyncStream_idle js_cb w hidle
  obtain ⟨w2, hexec, hr2, ha2, hj2, hc2, hfr2, hlen2, hlog2⟩ := ExecuteWork_spec hready (le_refl 1)
  rw [hstart] at ha2 hj2 hc2 hfr2 hlen2 hlog2
  simp only [] at ha2 hj2 hc2 hfr2 hlen2 hlog2
  have hwork : w2.addon_data.work = some w.jobs.length := by rw [ha2]
  have hjob : w2.jobs[w.jobs.length]? = some ⟨true, false⟩ := by
    rw [hj2]
    simp
  obtain ⟨g1, g2, g3, g4, g5, g6, g7⟩ := WorkComplete_spec hr2 hwork hjob rfl
  refine ⟨WorkComplete w2, ?_, g1, g2, ?_, ?_, ?_, ?_, ?_⟩
  · intro fuel hfuel
    have hsf : ¬ ((ThreadSafeAsyncStream js_cb w).fault ≠ none) := by
      rw [hready.1]
      exact fun hne => hne rfl
    have h2f : ¬ (w2.fault ≠ none) := by
      rw [hr2.1]
      exact fun hne => hne rfl
    unfold normalRun
    simp only []
    rw [if_neg hsf, hexec fuel hfuel]
    simp only []
    rw [if_neg h2f]
  · rw [g4, hj2]
    simp
  · rw [g7, hlen2]
    simp
  · rw [g5, hc2]
  · rw [g6, hfr2]
  · rw [g3, hlog2]

/-! ## The heap -/

theorem lookup_filter_self (heap : List (Nat × Int)) (a : Nat) :
    (heap.filter (fun e => e.1 ≠ a)).lookup a = none := by
  induction heap with
  | nil => rfl
  | cons e es ih =>
    obtain ⟨k, v⟩ := e
    by_cases hk : k = a
    · rw [List.filter_cons_of_neg (by simp [hk]), ih]
    · have hne : (a == k) = false := beq_eq_false_iff_ne.2 (fun h => hk h.symm)
      rw [List.filter_cons_of_pos (by simp [hk]), List.lookup_cons, hne]
      exact ih

theorem lookup_filter_ne (heap : List (Nat × Int)) (a b : Nat) (hb : b ≠ a) :
    (heap.filter (fun e => e.1 ≠ a)).lookup b = heap.lookup b := by
  induction heap with
  | nil => rfl
  | cons e es ih =>
    obtain ⟨k, v⟩ := e
    by_cases hk : k = a
    · have hne : (b == k) = false := beq_eq_false_iff_ne.2 (by rw [hk]; exact hb)
      rw [List.filter_cons_of_neg (by simp [hk]), ih, List.lookup_cons, hne]
    · rw [List.filter_cons_of_pos (by simp [hk]), List.lookup_cons, List.lookup_cons, ih]

/-- What `CallJs` does to a live item holding `v` when the callback, if it is
called, returns. -/
theorem CallJs_eq (call : World → Nat → List Int → napi_status) (env : Option Nat)
    (js_cb data : Nat) (v : Int) (w : World) (hlive : w.heap.lookup data = some v)
    (hok : env ≠ none → call w js_cb [v] = napi_status.napi_ok) :
    CallJs call env js_cb data w =
      { w with
        js_calls := if env ≠ none then w.js_calls ++ [(js_cb, [v])] else w.js_calls
        heap := w.heap.filter (fun e => e.1 ≠ data)
        frees := w.frees ++ [data] } := by
  cases env with
  | none => simp [CallJs, free, hlive]
  | some e =>
    have hc := hok (by simp)
    simp [CallJs, free, hlive, napi_create_int32, napi_get_undefined, hc]

/-- What `CallJs` does to a live item holding `v` when the callback throws: the
assertion of lines 41-46 stops the process before `free(data)`. -/
theorem CallJs_throw (call : World → Nat → List Int → napi_status) (e : Nat)
    (js_cb data : Nat) (v : Int) (w : World) (hlive : w.heap.lookup data = some v)
    (hthrow : call w js_cb [v] ≠ napi_status.napi_ok) :
    CallJs call (some e) js_cb data w =
      { w with
        js_calls := w.js_calls ++ [(js_cb, [v])]
        fault := some (Fault.napi_failure (call w js_cb [v])) } := by
  simp only [CallJs, hlive, napi_create_int32, napi_get_undefined]
  rw [if_pos (by simp)]
  cases hst : call w js_cb [v] with
  | napi_ok => exact absurd hst hthrow
  | _ => rfl

/-! ## Interleavings of the worker and the owning thread -/

/-- Right after the start operation on an idle session nothing is delivered or
queued yet and every value is pending. -/
theorem Accounts.start (js_cb : Nat) (vs : List Int) (w : World)
    (hidle : w.addon_data.work = none) (hf : w.fault = none) :
    Accounts w.jobs.length js_cb vs w.js_calls (startedStream js_cb vs w) [] [] := by
  unfold Accounts startedStream
  dsimp only
  rw [ThreadSafeAsyncStream_idle js_cb w hidle]
  refine ⟨hf, ⟨⟨js_cb, 0, 1, [], false⟩, by simp, rfl, rfl, List.nodup_nil, ?_, rfl, ?_⟩,
    ?_, ?_, ?_, ?_, ?_⟩
  · intro a ha
    cases ha
  · intro _
    exact ⟨rfl, by simp⟩
  · intro _
    exact ⟨rfl, rfl, ⟨true, false⟩, by simp, rfl⟩
  · intro h
    cases h
  · intro h
    cases h
  · simp
  · simp

/-- A step of the worker that has not returned yet: its acquire, its next
submission or its release; the step can be taken and keeps the values accounted
for. -/
theorem Accounts.worker_step {k cb : Nat} {vs : List Int} {base : List (Nat × List Int)}
    {s : Stream} {delivered queued : List Int}
    (call : World → Nat → List Int → napi_status) (env : Option Nat)
    (hacc : Accounts k cb vs base s delivered queued) (hret : s.returned = false) :
    ∃ s1 queued1, step call env Action.worker s = some s1 ∧
      Accounts k cb vs base s1 delivered queued1 := by
  obtain ⟨h, acquired, pending, returned, completed, w⟩ := s
  unfold Accounts at hacc ⊢
  dsimp only at hacc hret ⊢
  subst hret
  obtain ⟨hf, ⟨d, hd, hm, hcb, hnd, hlt, hq, hphase⟩, hsess, _, hcr, hcalls, hsum⟩ := hacc
  have hcomp : completed = false := by
    cases completed with
    | false => rfl
    | true => exact absurd (hcr rfl) (by simp)
  subst hcomp
  obtain ⟨hc, hn⟩ := hphase rfl
  obtain ⟨ht, hwork, hjob⟩ := hsess rfl
  have hlen : h < w.dispatchers.length := by
    rcases List.getElem?_eq_some_iff.1 hd with ⟨hlen, _⟩
    exact hlen
  cases acquired with
  | false =>
    have hn1 : d.thread_count = 1 := by simpa using hn
    refine ⟨⟨h, true, pending, false, false,
      { w with
        dispatchers := w.dispatchers.set h { d with thread_count := d.thread_count + 1 }
        log := w.log ++ [TsfnEvent.acquire Thread.worker h d.thread_count] }⟩, queued, ?_, ?_⟩
    · simp [step, hf, napi_acquire_threadsafe_function, ht, hd, hc]
    · dsimp only
      refine ⟨hf, ⟨{ d with thread_count := d.thread_count + 1 }, by simp [hlen], hm, hcb, hnd,
        hlt, hq, fun _ => ⟨hc, by simp [hn1]⟩⟩, fun _ => ⟨ht, hwork, hjob⟩, ?_, ?_, hcalls, hsum⟩
      · intro hr
        cases hr
      · intro hr
        cases hr
  | true =>
    have hn2 : d.thread_count = 2 := by simpa using hn
    cases pending with
    | cons v rest =>
      have heq : submit_prime v w = some
          { w with
            heap := (w.next_addr, v) :: w.heap
            next_addr := w.next_addr + 1
            dispatchers := w.dispatchers.set h { d with queue := d.queue ++ [w.next_addr] }
            log := w.log ++ [TsfnEvent.submit Thread.worker h (some v) true 2] } := by
        simp [submit_prime, malloc_int, napi_call_threadsafe_function, ht, hd, hc, hm, hn2,
          List.lookup]
      refine ⟨⟨h, true, rest, false, false,
        { w with
          heap := (w.next_addr, v) :: w.heap
          next_addr := w.next_addr + 1
          dispatchers := w.dispatchers.set h { d with queue := d.queue ++ [w.next_addr] }
          log := w.log ++ [TsfnEvent.submit Thread.worker h (some v) true 2] }⟩,
        queued ++ [v], ?_, ?_⟩
      · simp [step, hf, heq]
      · dsimp only
        refine ⟨hf, ⟨{ d with queue := d.queue ++ [w.next_addr] }, by simp [hlen], hm, hcb,
          ?_, ?_, ?_, fun _ => ⟨hc, by simp [hn2]⟩⟩, fun _ => ⟨ht, hwork, hjob⟩, ?_, ?_,
          hcalls, ?_⟩
        · show (d.queue ++ [w.next_addr]).Nodup
          rw [List.nodup_append]
          refine ⟨hnd, List.nodup_singleton _, ?_⟩
          intro a ha hb
          have h1 := hlt a ha
          have h2 : a = w.next_addr := List.mem_singleton.1 hb
          omega
        · intro a ha
          show a < w.next_addr + 1
          rcases List.mem_append.1 ha with h1 | h1
          · have := hlt a h1
            omega
          · have h2 : a = w.next_addr := List.mem_singleton.1 h1
            omega
        · show (d.queue ++ [w.next_addr]).map
              (fun a => List.lookup a ((w.next_addr, v) :: w.heap))
            = (queued ++ [v]).map some
          rw [List.map_append, List.map_append, ← hq]
          congr 1
          · apply List.map_congr_left
            intro a ha
            have h1 := hlt a ha
            have hne : (a == w.next_addr) = false := beq_eq_false_iff_ne.2 (by omega)
            rw [List.lookup_cons, hne]
          · simp [List.lookup_cons]
        · intro hr
          cases hr
        · intro hr
          cases hr
        · show delivered ++ (queued ++ [v]) ++ rest = vs
          rw [← hsum]
          simp
    | nil =>
      refine ⟨⟨h, true, [], true, false,
        { w with
          dispatchers := w.dispatchers.set h
            { d with thread_count := d.thread_count - 1
                     closing := d.closing || d.thread_count - 1 == 0 }
          log := w.log ++ [TsfnEvent.release Thread.worker h d.thread_count] }⟩, queued, ?_, ?_⟩
      · simp [step, hf, napi_release_threadsafe_function, ht, hd, hn2]
      · dsimp only
        refine ⟨hf, ⟨{ d with thread_count := d.thread_count - 1
                              closing := d.closing || d.thread_count - 1 == 0 },
          by simp [hlen], hm, hcb, hnd, hlt, hq,
          fun _ => ⟨by simp [hc, hn2], by simp [hn2]⟩⟩, fun _ => ⟨ht, hwork, hjob⟩, ?_, ?_,
          hcalls, hsum⟩
        · intro _
          exact ⟨rfl, rfl⟩
        · intro hr
          cases hr

/-- A delivery with `v` at the head of the queue, by a callback that returns: `v` is
handed to the callback and its item is freed, before or after the completion
callback. -/
theorem Accounts.deliver_step {k cb : Nat} {vs : List Int} {base : List (Nat × List Int)}
    {s : Stream} {delivered queued : List Int}
    (call : World → Nat → List Int → napi_status)
    (hcall : ∀ w f args, call w f args = napi_status.napi_ok) (e : Nat) {v : Int}
    (hacc : Accounts k cb vs base s delivered (v :: queued)) :
    ∃ s1, step call (some e) Action.deliver s = some s1 ∧
      Accounts k cb vs base s1 (delivered ++ [v]) queued := by
  obtain ⟨h, acquired, pending, returned, completed, w⟩ := s
  unfold Accounts at hacc ⊢
  dsimp only at hacc ⊢
  obtain ⟨hf, ⟨d, hd, hm, hcb, hnd, hlt, hq, hphase⟩, hsess, hra, hcr, hcalls, hsum⟩ := hacc
  have hlen : h < w.dispatchers.length := by
    rcases List.getElem?_eq_some_iff.1 hd with ⟨hlen, _⟩
    exact hlen
  cases hqueue : d.queue with
  | nil =>
    rw [hqueue] at hq
    simp at hq
  | cons a rest =>
    rw [hqueue] at hq hnd hlt
    simp only [List.map_cons, List.cons.injEq] at hq
    obtain ⟨hlive, hrest⟩ := hq
    have hnotin : a ∉ rest := (List.nodup_cons.1 hnd).1
    have hcj := CallJs_eq call (some e) d.js_cb a v
      { w with dispatchers := w.dispatchers.set h { d with queue := rest } } hlive
      (fun _ => hcall _ _ _)
    have hdel : deliver call (some e) h w = some
        (CallJs call (some e) d.js_cb a
          { w with dispatchers := w.dispatchers.set h { d with queue := rest } }) := by
      simp [deliver, hd, hqueue]
    rw [hcj] at hdel
    refine ⟨⟨h, acquired, pending, returned, completed,
        { w with
          dispatchers := w.dispatchers.set h { d with queue := rest }
          js_calls := if (some e : Option Nat) ≠ none then w.js_calls ++ [(d.js_cb, [v])]
            else w.js_calls
          heap := w.heap.filter (fun x => x.1 ≠ a)
          frees := w.frees ++ [a] }⟩, ?_, ?_⟩
    · simp only [step, hf, hdel]
      simp
    · dsimp only
      refine ⟨hf, ⟨{ d with queue := rest }, by simp [hlen], hm, hcb, (List.nodup_cons.1 hnd).2,
        fun b hb => hlt b (List.mem_cons_of_mem _ hb), ?_, hphase⟩, hsess, hra, hcr, ?_, ?_⟩
      · show rest.map (fun b => List.lookup b (w.heap.filter (fun x => x.1 ≠ a)))
          = queued.map some
        rw [← hrest]
        apply List.map_congr_left
        intro b hb
        have hne : b ≠ a := by
          rintro rfl
          exact hnotin hb
        exact lookup_filter_ne _ _ _ hne
      · show (if (some e : Option Nat) ≠ none then w.js_calls ++ [(d.js_cb, [v])]
            else w.js_calls) = base ++ (delivered ++ [v]).map (fun x => (cb, [x]))
        rw [if_pos (by simp), hcalls, hcb]
        simp
      · show delivered ++ [v] ++ queued ++ pending = vs
        rw [← hsum]
        simp

/-- With nothing queued there is no delivery. -/
theorem Accounts.deliver_idle {k cb : Nat} {vs : List Int} {base : List (Nat × List Int)}
    {s : Stream} {delivered : List Int}
    (call : World → Nat → List Int → napi_status) (env : Option Nat)
    (hacc : Accounts k cb vs base s delivered []) :
    step call env Action.deliver s = none := by
  obtain ⟨_, ⟨d, hd, _, _, _, _, hq, _⟩, _⟩ := hacc
  have hqueue : d.queue = [] := by
    simpa using hq
  simp [step, deliver, hd, hqueue]

/-- The completion callback, once the worker has returned: the owning thread makes
its release, destroys the Job Handle and clears the session; what is queued stays
queued. -/
theorem Accounts.complete_step {k cb : Nat} {vs : List Int} {base : List (Nat × List Int)}
    {s : Stream} {delivered queued : List Int}
    (call : World → Nat → List Int → napi_status) (env : Option Nat)
    (hacc : Accounts k cb vs base s delivered queued) (hret : s.returned = true)
    (hcomp : s.completed = false) :
    ∃ s1, step call env Action.complete s = some s1 ∧ s1.completed = true ∧
      Accounts k cb vs base s1 delivered queued := by
  obtain ⟨h, acquired, pending, returned, completed, w⟩ := s
  unfold Accounts at hacc ⊢
  dsimp only at hacc hret hcomp ⊢
  subst hret
  subst hcomp
  obtain ⟨hf, ⟨d, hd, hm, hcb, hnd, hlt, hq, hphase⟩, hsess, hra, _, hcalls, hsum⟩ := hacc
  obtain ⟨hc, hn⟩ := hphase rfl
  obtain ⟨ht, hwork, j, hj, hdel⟩ := hsess rfl
  have hn1 : d.thread_count = 1 := by simpa using hn
  have hlen : h < w.dispatchers.length := by
    rcases List.getElem?_eq_some_iff.1 hd with ⟨hlen, _⟩
    exact hlen
  have heq : WorkComplete w =
      { w with
        addon_data := { work := none, tsfn := none }
        dispatchers := w.dispatchers.set h
          { d with thread_count := d.thread_count - 1
                   closing := d.closing || d.thread_count - 1 == 0 }
        jobs := w.jobs.set k { j with deleted := true }
        log := w.log ++ [TsfnEvent.release Thread.owning h d.thread_count] } := by
    simp [WorkComplete, napi_release_threadsafe_function, napi_delete_async_work, ht, hd, hn1,
      hwork, hj, hdel]
  refine ⟨⟨h, acquired, pending, true, true, WorkComplete w⟩, ?_, rfl, ?_⟩
  · simp [step, hf]
  · dsimp only
    rw [heq]
    refine ⟨hf, ⟨{ d with thread_count := d.thread_count - 1
                          closing := d.closing || d.thread_count - 1 == 0 },
      by simp [hlen], hm, hcb, hnd, hlt, hq, ?_⟩, ?_, hra, fun _ => rfl, hcalls, hsum⟩
    · intro hfalse
      cases hfalse
    · intro hfalse
      cases hfalse

/-- Every step of a run in progress, with a callback that returns, keeps the values
accounted for. -/
theorem Accounts.step {k cb : Nat} {vs : List Int} {base : List (Nat × List Int)}
    {s s1 : Stream} {delivered queued : List Int}
    (call : World → Nat → List Int → napi_status)
    (hcall : ∀ w f args, call w f args = napi_status.napi_ok) (e : Nat) (a : Action)
    (hacc : Accounts k cb vs base s delivered queued)
    (hstep : MyNodeC.step call (some e) a s = some s1) :
    ∃ delivered1 queued1, Accounts k cb vs base s1 delivered1 queued1 := by
  cases a with
  | worker =>
    cases hret : s.returned with
    | true =>
      simp [MyNodeC.step, hret] at hstep
    | false =>
      obtain ⟨s2, q2, hs2, hacc2⟩ := hacc.worker_step call (some e) hret
      rw [hs2] at hstep
      cases hstep
      exact ⟨_, _, hacc2⟩
  | deliver =>
    cases queued with
    | nil =>
      rw [hacc.deliver_idle call (some e)] at hstep
      cases hstep
    | cons v q =>
      obtain ⟨s2, hs2, hacc2⟩ := hacc.deliver_step call hcall e
      rw [hs2] at hstep
      cases hstep
      exact ⟨_, _, hacc2⟩
  | complete =>
    by_cases hen : s.returned = true ∧ s.completed = false
    · obtain ⟨s2, hs2, _, hacc2⟩ := hacc.complete_step call (some e) hen.1 hen.2
      rw [hs2] at hstep
      cases hstep
      exact ⟨_, _, hacc2⟩
    · simp [MyNodeC.step, hen] at hstep

/-- Every interleaving, with a callback that returns, keeps the values accounted
for. -/
theorem Accounts.run {k cb : Nat} {vs : List Int} {base : List (Nat × List Int)}
    (call : World → Nat → List Int → napi_status)
    (hcall : ∀ w f args, call w f args = napi_status.napi_ok) (e : Nat) :
    ∀ (schedule : List Action) (s s1 : Stream) (delivered queued : List Int),
      Accounts k cb vs base s delivered queued →
      runSchedule call (some e) schedule s = some s1 →
      ∃ delivered1 queued1, Accounts k cb vs base s1 delivered1 queued1 := by
  intro schedule
  induction schedule with
  | nil =>
    intro s s1 delivered queued hacc hrun
    simp only [runSchedule, Option.some.injEq] at hrun
    subst hrun
    exact ⟨_, _, hacc⟩
  | cons a as ih =>
    intro s s1 delivered queued hacc hrun
    simp only [runSchedule] at hrun
    cases hst : MyNodeC.step call (some e) a s with
    | none =>
      rw [hst] at hrun
      cases hrun
    | some s2 =>
      rw [hst] at hrun
      obtain ⟨d2, q2, hacc2⟩ := hacc.step call hcall e a hst
      exact ih s2 s1 d2 q2 hacc2 hrun

/-! ## The claims about the stream -/

/-- C1. Single-flight: in every session state in which a run is active
(`work` is not `NULL`) the start operation fails on the assertion "Only one work
item must exist at a time" (`AlreadyRunning`) and leaves `work` and `tsfn` as they
were; no Dispatcher or Job Handle is created, nothing is queued or logged. -/
theorem ThreadSafeAsyncStream_single_flight (js_cb : Nat) (w : World)
    (hactive : w.addon_data.work ≠ none) :
    (ThreadSafeAsyncStream js_cb w).fault = some Fault.AlreadyRunning
      ∧ (ThreadSafeAsyncStream js_cb w).addon_data.work = w.addon_data.work
      ∧ (ThreadSafeAsyncStream js_cb w).addon_data.tsfn = w.addon_data.tsfn
      ∧ (ThreadSafeAsyncStream js_cb w).dispatchers = w.dispatchers
      ∧ (ThreadSafeAsyncStream js_cb w).jobs = w.jobs
      ∧ (ThreadSafeAsyncStream js_cb w).log = w.log
      ∧ (ThreadSafeAsyncStream js_cb w).heap = w.heap
      ∧ (ThreadSafeAsyncStream js_cb w).js_calls = w.js_calls := by
  have heq : ThreadSafeAsyncStream js_cb w = w.abort Fault.AlreadyRunning := by
    unfold ThreadSafeAsyncStream
    rw [if_pos hactive]
  rw [heq]
  exact ⟨rfl, rfl, rfl, rfl, rfl, rfl, rfl, rfl⟩

/-- The single-flight theorem applied to a second start, with callback 8, in `runningWorld`. -/
theorem ThreadSafeAsyncStream_single_flight_witness :
    runningWorld.addon_data.work ≠ none
      ∧ (ThreadSafeAsyncStream 8 runningWorld).fault = some Fault.AlreadyRunning
      ∧ (ThreadSafeAsyncStream 8 runningWorld).addon_data.work = some 0
      ∧ (ThreadSafeAsyncStream 8 runningWorld).addon_data.tsfn = some 0 :=
  ⟨by decide,
    (ThreadSafeAsyncStream_single_flight 8 runningWorld (by decide)).1,
    (ThreadSafeAsyncStream_single_flight 8 runningWorld (by decide)).2.1,
    (ThreadSafeAsyncStream_single_flight 8 runningWorld (by decide)).2.2.1⟩

/-- C2. Idle re-entry: from an idle session, start, worker run and completion end
(for every fuel from `2^18` on) without a failed assertion in a world whose session
is idle again, `work` and `tsfn` both `NULL`; a further start there passes the
single-flight assertion and stores a new Job Handle and a new Dispatcher. -/
theorem idle_reentry (js_cb js_cb2 : Nat) (w : World) (hidle : w.addon_data.work = none)
    (hf : w.fault = none) :
    ∃ w1, (∀ fuel, 262144 ≤ fuel → normalRun js_cb fuel w = some w1)
      ∧ w1.fault = none ∧ w1.addon_data.work = none ∧ w1.addon_data.tsfn = none
      ∧ (ThreadSafeAsyncStream js_cb2 w1).fault = none
      ∧ (ThreadSafeAsyncStream js_cb2 w1).addon_data.work = some w1.jobs.length
      ∧ (ThreadSafeAsyncStream js_cb2 w1).addon_data.tsfn = some w1.dispatchers.length
      ∧ (ThreadSafeAsyncStream js_cb2 w1).jobs = w1.jobs ++ [⟨true, false⟩]
      ∧ (ThreadSafeAsyncStream js_cb2 w1).dispatchers
          = w1.dispatchers ++ [⟨js_cb2, 0, 1, [], false⟩] := by
  obtain ⟨w1, hrun, hf1, ha1, _⟩ := normalRun_spec js_cb w hidle hf
  have hidle1 : w1.addon_data.work = none := by rw [ha1]
  refine ⟨w1, hrun, hf1, hidle1, by rw [ha1], ?_⟩
  rw [ThreadSafeAsyncStream_idle js_cb2 w1 hidle1]
  exact ⟨hf1, rfl, rfl, rfl, rfl⟩

/-- The re-entry theorem applied to the freshly registered session. -/
theorem idle_reentry_witness :
    idleWorld.addon_data.work = none ∧ idleWorld.fault = none
      ∧ ∃ w1, (∀ fuel, 262144 ≤ fuel → normalRun 7 fuel idleWorld = some w1)
        ∧ w1.addon_data.work = none ∧ w1.addon_data.tsfn = none
        ∧ (ThreadSafeAsyncStream 8 w1).fault = none :=
  ⟨rfl, rfl,
    (idle_reentry 7 8 idleWorld rfl rfl).imp
      (fun _ hw => ⟨hw.1, hw.2.2.1, hw.2.2.2.1, hw.2.2.2.2.1⟩)⟩

/-- C3. Reference-count closure: in a normal run from an idle session the count of
the Dispatcher, set to 1 by the creation, goes 1, 2 (acquire), stays 2 over the
ten submits, then 1 (release by the worker), then 0 (release by the completion
callback): it reaches zero exactly once, no release and no submit is made while it
is zero, and no assertion fails. -/
theorem refcount_closure (js_cb : Nat) (w : World) (hidle : w.addon_data.work = none)
    (hf : w.fault = none) :
    ∃ w1 evs, (∀ fuel, 262144 ≤ fuel → normalRun js_cb fuel w = some w1)
      ∧ w1.fault = none ∧ w1.log = w.log ++ evs
      ∧ evs.map TsfnEvent.countAfter = [1, 2] ++ List.replicate 10 2 ++ [1, 0]
      ∧ (evs.map TsfnEvent.countAfter).count 0 = 1
      ∧ (∀ ev ∈ evs, ev.isReleaseAtZero = false)
      ∧ (∀ ev ∈ evs, ev.isSubmitAtZero = false)
      ∧ (evs.filterMap TsfnEvent.submitted).length = 10 := by
  obtain ⟨w1, hrun, hf1, _, _, _, _, _, hlog⟩ := normalRun_spec js_cb w hidle hf
  refine ⟨w1,
    [TsfnEvent.create w.dispatchers.length 1, TsfnEvent.acquire Thread.worker w.dispatchers.length 1]
      ++ (reported (Nat.nth Nat.Prime) 10).map
          (fun v => TsfnEvent.submit Thread.worker w.dispatchers.length (some v) true 2)
      ++ [TsfnEvent.release Thread.worker w.dispatchers.length 2,
          TsfnEvent.release Thread.owning w.dispatchers.length 1],
    hrun, hf1, ?_, ?_, ?_, ?_, ?_, ?_⟩
  · rw [hlog]
    simp
  · simp [reported, TsfnEvent.countAfter, List.range_succ, Function.comp]
  · simp [reported, TsfnEvent.countAfter, List.range_succ, Function.comp]
  · intro ev hev
    simp only [List.mem_append, List.mem_cons, List.mem_map, List.mem_singleton,
      List.not_mem_nil, or_false] at hev
    rcases hev with ((rfl | rfl) | ⟨v, _, rfl⟩) | rfl | rfl <;> rfl
  · intro ev hev
    simp only [List.mem_append, List.mem_cons, List.mem_map, List.mem_singleton,
      List.not_mem_nil, or_false] at hev
    rcases hev with ((rfl | rfl) | ⟨v, _, rfl⟩) | rfl | rfl <;> rfl
  · simp [reported, TsfnEvent.submitted, List.range_succ, List.filterMap_cons]

/-- The reference-count theorem applied to the freshly registered session. -/
theorem refcount_closure_witness :
    idleWorld.addon_data.work = none ∧ idleWorld.fault = none
      ∧ ∃ w1 evs, (∀ fuel, 262144 ≤ fuel → normalRun 7 fuel idleWorld = some w1)
        ∧ w1.log = idleWorld.log ++ evs
        ∧ (evs.map TsfnEvent.countAfter).count 0 = 1 :=
  ⟨rfl, rfl,
    (refcount_closure 7 idleWorld rfl rfl).imp
      (fun _ hw => hw.imp (fun _ he => ⟨he.1, he.2.2.1, he.2.2.2.2.1⟩))⟩

/-- C4, as the code has it. In a run that completes normally the Dispatcher is
released exactly twice: by the worker thread (`ExecuteWork`, right before it
returns), which finds the count at 2, and then by the owning thread
(`WorkComplete`), which finds it at 1 and brings it to zero. -/
theorem releases_of_normal_run (js_cb : Nat) (w : World) (hidle : w.addon_data.work = none)
    (hf : w.fault = none) :
    ∃ w1, (∀ fuel, 262144 ≤ fuel → normalRun js_cb fuel w = some w1) ∧ w1.fault = none
      ∧ w1.log.filter TsfnEvent.isRelease = w.log.filter TsfnEvent.isRelease
          ++ [TsfnEvent.release Thread.worker w.dispatchers.length 2,
              TsfnEvent.release Thread.owning w.dispatchers.length 1] := by
  obtain ⟨w1, hrun, hf1, _, _, _, _, _, hlog⟩ := normalRun_spec js_cb w hidle hf
  refine ⟨w1, hrun, hf1, ?_⟩
  rw [hlog]
  simp [List.filter_append, List.filter_cons, TsfnEvent.isRelease, List.filter_map,
    Function.comp]

/-- The two releases of the normal run from the freshly registered session. -/
theorem releases_of_normal_run_witness :
    idleWorld.addon_data.work = none ∧ idleWorld.fault = none
      ∧ ∃ w1, (∀ fuel, 262144 ≤ fuel → normalRun 7 fuel idleWorld = some w1)
        ∧ w1.log.filter TsfnEvent.isRelease = idleWorld.log.filter TsfnEvent.isRelease
          ++ [TsfnEvent.release Thread.worker idleWorld.dispatchers.length 2,
              TsfnEvent.release Thread.owning idleWorld.dispatchers.length 1] :=
  ⟨rfl, rfl,
    (releases_of_normal_run 7 idleWorld rfl rfl).imp (fun _ hw => ⟨hw.1, hw.2.2⟩)⟩

/-- C4 as stated fails: in the normal run from the freshly registered session the
owning thread does release the Dispatcher, after the worker has, so the releases
are two and not one. -/
theorem single_releasing_owner_refuted :
    ∃ w1, normalRun 7 262144 idleWorld = some w1 ∧ w1.fault = none
      ∧ w1.log.filter TsfnEvent.isRelease
          = [TsfnEvent.release Thread.worker 0 2, TsfnEvent.release Thread.owning 0 1]
      ∧ ¬ ((w1.log.filter TsfnEvent.isRelease).length = 1
            ∧ (w1.log.filter (TsfnEvent.isReleaseBy Thread.owning)).length = 0) := by
  obtain ⟨w1, hrun, hf1, _, _, _, _, _, hlog⟩ := normalRun_spec 7 idleWorld rfl rfl
  have hrel : w1.log.filter TsfnEvent.isRelease
      = [TsfnEvent.release Thread.worker 0 2, TsfnEvent.release Thread.owning 0 1] := by
    rw [hlog]
    simp [List.filter_append, List.filter_cons, TsfnEvent.isRelease, List.filter_map,
      Function.comp, idleWorld, Init_ThreadSafeAsyncStream]
  refine ⟨w1, hrun 262144 (le_refl _), hf1, hrel, ?_⟩
  rw [hrel]
  intro hboth
  exact absurd hboth.1 (by decide)

/-- C5, as the code has it. The marshaller `CallJs` on a live item holding the
integer `v`. With the `NULL` environment of the cleanup phase the callback is not
called and the item is passed to `free` exactly once. With an environment the
callback is called exactly once, with the single argument `v`; when that call
returns, the item is passed to `free` exactly once, is no longer live, and the
other items stay as they were; when that call fails (the callback throws), the
assertion of lines 41-46 stops the process before `free(data)` and the item is
still live. -/
theorem CallJs_delivers_and_frees (call : World → Nat → List Int → napi_status)
    (env : Option Nat) (js_cb data : Nat) (v : Int) (w : World)
    (hlive : w.heap.lookup data = some v) :
    (env = none →
        (CallJs call env js_cb data w).js_calls = w.js_calls
          ∧ (CallJs call env js_cb data w).frees = w.frees ++ [data]
          ∧ (CallJs call env js_cb data w).heap.lookup data = none
          ∧ (∀ a, a ≠ data → (CallJs call env js_cb data w).heap.lookup a = w.heap.lookup a)
          ∧ (CallJs call env js_cb data w).fault = w.fault)
      ∧ (env ≠ none →
          (CallJs call env js_cb data w).js_calls = w.js_calls ++ [(js_cb, [v])]
            ∧ (call w js_cb [v] = napi_status.napi_ok →
                (CallJs call env js_cb data w).frees = w.frees ++ [data]
                  ∧ (CallJs call env js_cb data w).heap.lookup data = none
                  ∧ (∀ a, a ≠ data →
                      (CallJs call env js_cb data w).heap.lookup a = w.heap.lookup a)
                  ∧ (CallJs call env js_cb data w).fault = w.fault)
            ∧ (call w js_cb [v] ≠ napi_status.napi_ok →
                (CallJs call env js_cb data w).fault
                    = some (Fault.napi_failure (call w js_cb [v]))
                  ∧ (CallJs call env js_cb data w).frees = w.frees
                  ∧ (CallJs call env js_cb data w).heap = w.heap)) := by
  constructor
  · intro he
    rw [CallJs_eq call env js_cb data v w hlive (fun hne => absurd he hne)]
    refine ⟨?_, rfl, lookup_filter_self _ _, fun a ha => lookup_filter_ne _ _ _ ha, rfl⟩
    show (if env ≠ none then w.js_calls ++ [(js_cb, [v])] else w.js_calls) = _
    rw [if_neg (fun hne => hne he)]
  · intro he
    obtain ⟨e, rfl⟩ : ∃ e, env = some e := Option.ne_none_iff_exists'.1 he
    by_cases hc : call w js_cb [v] = napi_status.napi_ok
    · rw [CallJs_eq call (some e) js_cb data v w hlive (fun _ => hc)]
      refine ⟨?_, fun _ => ⟨rfl, lookup_filter_self _ _,
        fun a ha => lookup_filter_ne _ _ _ ha, rfl⟩, fun hne => absurd hc hne⟩
      show (if (some e : Option Nat) ≠ none then w.js_calls ++ [(js_cb, [v])]
        else w.js_calls) = _
      rw [if_pos he]
    · rw [CallJs_throw call e js_cb data v w hlive hc]
      exact ⟨rfl, fun hok => absurd hok hc, fun _ => ⟨rfl, rfl, rfl⟩⟩

/-- The marshaller theorem applied to one live item holding 7919 and a callback that
returns, with and without an environment. -/
theorem CallJs_delivers_and_frees_witness :
    (malloc_int 7919 idleWorld).2.heap.lookup 0 = some 7919
      ∧ (CallJs (fun _ _ _ => napi_status.napi_ok) (some 1) 7 0
            (malloc_int 7919 idleWorld).2).js_calls = [(7, [7919])]
      ∧ (CallJs (fun _ _ _ => napi_status.napi_ok) (some 1) 7 0
            (malloc_int 7919 idleWorld).2).frees = [0]
      ∧ (CallJs (fun _ _ _ => napi_status.napi_ok) none 7 0
            (malloc_int 7919 idleWorld).2).js_calls = []
      ∧ (CallJs (fun _ _ _ => napi_status.napi_ok) none 7 0
            (malloc_int 7919 idleWorld).2).frees = [0] :=
  ⟨rfl,
    ((CallJs_delivers_and_frees (fun _ _ _ => napi_status.napi_ok) (some 1) 7 0 7919
      (malloc_int 7919 idleWorld).2 rfl).2 (by simp)).1,
    (((CallJs_delivers_and_frees (fun _ _ _ => napi_status.napi_ok) (some 1) 7 0 7919
      (malloc_int 7919 idleWorld).2 rfl).2 (by simp)).2.1 rfl).1,
    ((CallJs_delivers_and_frees (fun _ _ _ => napi_status.napi_ok) none 7 0 7919
      (malloc_int 7919 idleWorld).2 rfl).1 rfl).1,
    ((CallJs_delivers_and_frees (fun _ _ _ => napi_status.napi_ok) none 7 0 7919
      (malloc_int 7919 idleWorld).2 rfl).1 rfl).2.1⟩

/-- C5 as stated fails: with an environment and a callback that throws, `CallJs` on
the live item at address 0 holding 7919 calls the callback once, stops on the
assertion of lines 41-46 and never frees the item. -/
theorem CallJs_throwing_callback_not_freed :
    (malloc_int 7919 idleWorld).2.heap.lookup 0 = some 7919
      ∧ (CallJs (fun _ _ _ => napi_status.napi_pending_exception) (some 1) 7 0
            (malloc_int 7919 idleWorld).2).js_calls = [(7, [7919])]
      ∧ (CallJs (fun _ _ _ => napi_status.napi_pending_exception) (some 1) 7 0
            (malloc_int 7919 idleWorld).2).frees = []
      ∧ (CallJs (fun _ _ _ => napi_status.napi_pending_exception) (some 1) 7 0
            (malloc_int 7919 idleWorld).2).heap.lookup 0 = some 7919
      ∧ (CallJs (fun _ _ _ => napi_status.napi_pending_exception) (some 1) 7 0
            (malloc_int 7919 idleWorld).2).fault
          = some (Fault.napi_failure napi_status.napi_pending_exception) :=
  ⟨rfl, rfl, rfl, rfl, rfl⟩

theorem filterMap_submitted_map (h n : Nat) (vs : List Int) :
    (vs.map (fun v => TsfnEvent.submit Thread.worker h (some v) true n)).filterMap
        TsfnEvent.submitted
      = vs.map (fun v => (some v, true)) := by
  induction vs with
  | nil => rfl
  | cons v vs ih => simp [List.filterMap_cons, TsfnEvent.submitted, ih]

/-- C6. The worker production loop: in a world where the worker may use the
Dispatcher, `ExecuteWork` returns for every fuel from `2^18` on, without a failed
assertion, and the items it has submitted are, in order and each in blocking
mode, the 1000th, 2000th, ..., 10000th prime (the k-th prime being
`Nat.nth Nat.Prime (k - 1)`, the first one 2): `PRIME_COUNT / REPORT_EVERY = 10`
items, strictly increasing, all prime, the last the `PRIME_COUNT`-th prime. -/
theorem ExecuteWork_reports (h cnt : Nat) (w : World) (hready : Ready h cnt w)
    (hcnt : 1 ≤ cnt) :
    ∃ w1, (∀ fuel, 262144 ≤ fuel → ExecuteWork fuel w = some w1) ∧ w1.fault = none
      ∧ w1.log.filterMap TsfnEvent.submitted = w.log.filterMap TsfnEvent.submitted
          ++ (List.range 10).map
              (fun k => (some ((Nat.nth Nat.Prime (1000 * (k + 1) - 1) : Nat) : Int), true))
      ∧ PRIME_COUNT / REPORT_EVERY = 10
      ∧ Nat.nth Nat.Prime (1 - 1) = 2
      ∧ ((List.range 10).map (fun k => Nat.nth Nat.Prime (1000 * (k + 1) - 1))).Pairwise
          (fun a b => a < b)
      ∧ (∀ k, k < 10 → Nat.Prime (Nat.nth Nat.Prime (1000 * (k + 1) - 1)))
      ∧ ((List.range 10).map (fun k => Nat.nth Nat.Prime (1000 * (k + 1) - 1))).getLast?
          = some (Nat.nth Nat.Prime (PRIME_COUNT.toNat - 1)) := by
  obtain ⟨w1, hexec, hr1, _, _, _, _, _, hlog⟩ := ExecuteWork_spec hready hcnt
  refine ⟨w1, hexec, hr1.1, ?_, by decide, Nat.nth_prime_zero_eq_two, ?_,
    fun k _ => Nat.prime_nth_prime _, ?_⟩
  · rw [hlog]
    simp only [List.filterMap_append, filterMap_submitted_map]
    simp [List.filterMap_cons, TsfnEvent.submitted, reported, REPORT_EVERY, List.map_map,
      Function.comp]
  · exact (List.pairwise_lt_range 10).map _
      (fun a b hab => Nat.nth_strictMono Nat.infinite_setOf_prime (by omega))
  · simp [List.range_succ, PRIME_COUNT]

/-- The production-loop theorem applied to the worker entry point in `runningWorld`. -/
theorem ExecuteWork_reports_witness :
    Ready 0 1 runningWorld ∧ 1 ≤ 1
      ∧ ∃ w1, (∀ fuel, 262144 ≤ fuel → ExecuteWork fuel runningWorld = some w1)
        ∧ w1.log.filterMap TsfnEvent.submitted = runningWorld.log.filterMap TsfnEvent.submitted
          ++ (List.range 10).map
              (fun k => (some ((Nat.nth Nat.Prime (1000 * (k + 1) - 1) : Nat) : Int), true)) :=
  ⟨⟨rfl, rfl, ⟨7, 0, 1, [], false⟩, rfl, rfl, rfl, rfl⟩, le_refl 1,
    (ExecuteWork_reports 0 1 runningWorld
      ⟨rfl, rfl, ⟨7, 0, 1, [], false⟩, rfl, rfl, rfl, rfl⟩ (le_refl 1)).imp
      (fun _ hw => ⟨hw.1, hw.2.2.1⟩)⟩

/-- C7, as the code has it. Delivery ordering: after the start operation on an idle
session the worker makes its acquire, submits the values `vs` in order and makes
its release, while the owning thread delivers through `CallJs` with an environment
and runs `WorkComplete` once the worker has returned, deliveries coming before or
after it. If every call of the callback returns, then after every interleaving no
assertion has failed and the calls of the bound callback made so far carry, in
order, the first values of `vs`; and when nothing more can happen the completion
callback has run and the calls carry exactly `vs`: nothing dropped, duplicated or
reordered. -/
theorem delivery_order (call : World → Nat → List Int → napi_status)
    (hcall : ∀ w f args, call w f args = napi_status.napi_ok) (e js_cb : Nat)
    (vs : List Int) (w : World) (schedule : List Action) (s : Stream)
    (hidle : w.addon_data.work = none) (hf : w.fault = none)
    (hrun : runSchedule call (some e) schedule (startedStream js_cb vs w) = some s) :
    s.world.fault = none
      ∧ (∃ n, s.world.js_calls = w.js_calls ++ (vs.take n).map (fun v => (js_cb, [v])))
      ∧ ((∀ a, step call (some e) a s = none) →
          s.completed = true
            ∧ s.world.js_calls = w.js_calls ++ vs.map (fun v => (js_cb, [v]))) := by
  obtain ⟨delivered, queued, hacc⟩ :=
    Accounts.run call hcall e schedule _ s [] [] (Accounts.start js_cb vs w hidle hf) hrun
  have hcalls := hacc.2.2.2.2.2.1
  have hsum := hacc.2.2.2.2.2.2
  refine ⟨hacc.1, ⟨delivered.length, ?_⟩, ?_⟩
  · rw [hcalls, ← hsum]
    simp [List.take_append_of_le_length]
  · intro hquiet
    have hret : s.returned = true := by
      cases hr : s.returned with
      | true => rfl
      | false =>
        obtain ⟨s1, _, hs1, _⟩ := hacc.worker_step call (some e) hr
        rw [hquiet Action.worker] at hs1
        cases hs1
    have hp : s.pending = [] := (hacc.2.2.2.1 hret).2
    have hqd : queued = [] := by
      cases queued with
      | nil => rfl
      | cons v q =>
        obtain ⟨s1, hs1, _⟩ := hacc.deliver_step call hcall e
        rw [hquiet Action.deliver] at hs1
        cases hs1
    have hcomp : s.completed = true := by
      cases hc : s.completed with
      | true => rfl
      | false =>
        obtain ⟨s1, hs1, _⟩ := hacc.complete_step call (some e) hret hc
        rw [hquiet Action.complete] at hs1
        cases hs1
    refine ⟨hcomp, ?_⟩
    rw [hcalls, ← hsum, hp, hqd]
    simp

/-- The ordering theorem applied to two values, a callback that returns, and a
schedule in which the completion callback runs before the last delivery. -/
theorem delivery_order_witness :
    (∀ (w : World) (f : Nat) (args : List Int),
        (fun (_ : World) (_ : Nat) (_ : List Int) => napi_status.napi_ok) w f args
          = napi_status.napi_ok)
      ∧ idleWorld.addon_data.work = none ∧ idleWorld.fault = none
      ∧ ∃ s, runSchedule (fun _ _ _ => napi_status.napi_ok) (some 1)
            [Action.worker, Action.worker, Action.deliver, Action.worker, Action.worker,
              Action.complete, Action.deliver]
            (startedStream 7 [7919, 17389] idleWorld) = some s
          ∧ s.completed = true
          ∧ s.world.js_calls = [(7, [7919]), (7, [17389])] :=
  ⟨fun _ _ _ => rfl, rfl, rfl, _, rfl,
    (delivery_order (fun _ _ _ => napi_status.napi_ok) (fun _ _ _ => rfl) 1 7 [7919, 17389]
      idleWorld
      [Action.worker, Action.worker, Action.deliver, Action.worker, Action.worker,
        Action.complete, Action.deliver] _ rfl rfl rfl).2.2
      (fun a => by cases a <;> rfl)⟩

/-- C7 as stated fails: with a callback that throws, the worker submits 7919 and
17389, the first delivery calls the callback with 7919 and stops the process on
the assertion of lines 41-46; nothing more can happen, and the callback has been
called with 7919 only. -/
theorem delivery_order_fails_when_callback_throws :
    ∃ s, runSchedule (fun _ _ _ => napi_status.napi_pending_exception) (some 1)
          [Action.worker, Action.worker, Action.worker, Action.deliver]
          (startedStream 7 [7919, 17389] idleWorld) = some s
      ∧ s.pending = []
      ∧ (∀ a, step (fun _ _ _ => napi_status.napi_pending_exception) (some 1) a s = none)
      ∧ s.world.js_calls = [(7, [7919])]
      ∧ s.world.js_calls ≠ [(7, [7919]), (7, [17389])]
      ∧ s.world.fault = some (Fault.napi_failure napi_status.napi_pending_exception) :=
  ⟨_, rfl, rfl, fun a => by cases a <;> rfl, rfl, by decide, rfl⟩

end MyNodeC
